import Mathlib

/-!
# BOTE engine evaluator: embedding of `main.go`

A Go `string` is a sequence of bytes and is modelled as a `List Nat` (each
byte a natural number below 256).  A Go `int` is modelled as `Int`, except
for loop indices, table indices and `moveCount`, which never leave `0..13`
and are modelled as `Nat`.  Byte arithmetic wraps modulo `2^8`.
-/

namespace BOTE

/-! ## Element symbols -/

/-- Byte of the character W. -/
abbrev cW : Nat := 87
/-- Byte of the character V. -/
abbrev cV : Nat := 86
/-- Byte of the character A. -/
abbrev cA : Nat := 65
/-- Byte of the character L. -/
abbrev cL : Nat := 76
/-- Byte of the character D. -/
abbrev cD : Nat := 68

/-- Two-result lookup `elementsDepth[e][d]` of the nested map: `none` when
either key is missing. -/
def elementsDepth (e : Nat) (d : Nat) : Option Nat :=
  if e = cW then
    (if d = 1 then some cL else if d = 2 then some cA
     else if d = 3 then some cV else if d = 4 then some cW else none)
  else if e = cV then
    (if d = 1 then some cW else if d = 2 then some cL
     else if d = 3 then some cA else if d = 4 then some cV else none)
  else if e = cA then
    (if d = 1 then some cV else if d = 2 then some cW
     else if d = 3 then some cL else if d = 4 then some cA else none)
  else if e = cL then
    (if d = 1 then some cA else if d = 2 then some cV
     else if d = 3 then some cW else if d = 4 then some cL else none)
  else none

/-- One-result lookup `elementsDepth[e][d]`: the zero byte for a missing key. -/
def elementsDepthD (e : Nat) (d : Nat) : Nat := (elementsDepth e d).getD 0

/-- Table `moveWins`, row `i`, column `j`; the indices are always in `0..4`. -/
def moveWins (i j : Nat) : Nat :=
  (([[0, 1, 0, 2, 0],
     [2, 0, 1, 0, 0],
     [0, 2, 0, 1, 0],
     [1, 0, 2, 0, 0],
     [0, 0, 0, 0, 0]] : List (List Nat)).getD i []).getD j 0

/-- Two-result lookup `moveToIndex[m]`. -/
def moveToIndex (m : Nat) : Option Nat :=
  if m = cW then some 0 else if m = cV then some 1 else if m = cA then some 2
  else if m = cL then some 3 else if m = cD then some 4 else none

/-- One-result lookup `moveToIndex[m]`: index 0 for a missing key. -/
def moveToIndexD (m : Nat) : Nat := (moveToIndex m).getD 0

/-- Array `depthToElement`. -/
def depthToElement : List Nat := [cW, cV, cA, cL, cD]

/-- The array type `[5]int` of remaining counts, in the order W, V, A, L, D. -/
structure Inventory where
  w : Int
  v : Int
  a : Int
  l : Int
  d : Int
deriving DecidableEq, Repr

/-- Read `available[i]`; every index the program uses is in `0..4`. -/
def Inventory.get (inv : Inventory) (i : Nat) : Int :=
  match i with
  | 0 => inv.w
  | 1 => inv.v
  | 2 => inv.a
  | 3 => inv.l
  | 4 => inv.d
  | _ => 0

/-- Statement `available[i]--`. -/
def Inventory.dec (inv : Inventory) (i : Nat) : Inventory :=
  match i with
  | 0 => { inv with w := inv.w - 1 }
  | 1 => { inv with v := inv.v - 1 }
  | 2 => { inv with a := inv.a - 1 }
  | 3 => { inv with l := inv.l - 1 }
  | 4 => { inv with d := inv.d - 1 }
  | _ => inv

/-- Literal `[5]int{3, 3, 3, 3, 1}`. -/
def initialInventory : Inventory := ⟨3, 3, 3, 3, 1⟩

/-- State of one player: `moves` is the `[13]byte` array. -/
structure Player where
  available : Inventory
  moves : List Nat
  moveCount : Nat
deriving DecidableEq, Repr

/-- Result record of one candidate. -/
structure engineResult where
  engine : List Nat
  score : Int
  neverLoses : Bool
  wins : Int
deriving DecidableEq, Repr

/-- Expression `int(c - '0')` on a byte `c`: the subtraction wraps modulo 256. -/
def depthOfByte (c : Nat) : Nat := (c + (256 - 48)) % 256

/-- Function `getElementFromCode`. -/
def getElementFromCode (depth : Nat) : Nat :=
  if depth < 1 ∨ depth > 5 then 0 else depthToElement.getD (depth - 1) 0

/-- Function `getElementByDepth`. -/
def getElementByDepth (prevElement : Nat) (depth : Nat) : Nat :=
  if depth = 5 then cD
  else if prevElement = 0 then 0
  else
    let prevElement := if prevElement = cD then cL else prevElement
    match elementsDepth prevElement depth with
    | none => 0
    | some next => next

/-- The `for i := 0; i < 5; i++` loop of `chooseAvailableElement` with `n`
iterations left: `some c` when the loop returns `c`, `none` when it runs out. -/
def chooseLoop (available : Inventory) : Nat → Nat → Option Nat
  | 0, _ => none
  | n + 1, current =>
    let current := elementsDepthD current 1
    let currentIdx := moveToIndexD current
    if available.get currentIdx > 0 then some current
    else chooseLoop available n current

/-- Function `chooseAvailableElement`. -/
def chooseAvailableElement (target : Nat) (available : Inventory) : Nat :=
  let targetIdx := moveToIndexD target
  if available.get targetIdx > 0 then target
  else
    match chooseLoop available 5 target with
    | some c => c
    | none => if available.get 4 > 0 then cD else 0

/-- The `range` loop of `getLastElement` over the remaining candidates. -/
def lastLoop (available : Inventory) : List Nat → Nat
  | [] => 0
  | c :: cs => if available.get (moveToIndexD c) > 0 then c else lastLoop available cs

/-- Function `getLastElement`. -/
def getLastElement (available : Inventory) : Nat :=
  lastLoop available [cW, cV, cA, cL, cD]

/-- Function `determineWinner`. -/
def determineWinner (move1 move2 : Nat) : Int :=
  match moveToIndex move1, moveToIndex move2 with
  | some move1Idx, some move2Idx => (moveWins move1Idx move2Idx : Nat)
  | _, _ => 0

/-- The three statements that record a move: decrement the inventory, store
the move at `moves[moveCount]`, increment `moveCount`. -/
def Player.play (p : Player) (move : Nat) : Player :=
  { available := p.available.dec (moveToIndexD move)
    moves := p.moves.set p.moveCount move
    moveCount := p.moveCount + 1 }

/-- A zero-valued `Player` whose inventory is then set to 3, 3, 3, 3, 1. -/
def initialPlayer : Player :=
  { available := initialInventory, moves := List.replicate 13 0, moveCount := 0 }

/-- Local state of `simulateDepthGame`. -/
structure DepthState where
  p1 : Player
  p2 : Player
  p1Score : Int
  p2Score : Int
deriving DecidableEq, Repr

/-- The `if winner == 1 ... else if winner == 2 ...` update of the two scores. -/
def addScore (winner : Int) (s : Int × Int) : Int × Int :=
  if winner = 1 then (s.1 + 1, s.2) else if winner = 2 then (s.1, s.2 + 1) else s

/-- Body of the 12-round loop of `simulateDepthGame` at index `i`; `none` is
the early `return -1, -1`. -/
def depthRound (engine1 engine2 : List Nat) (s : DepthState) (i : Nat) : Option DepthState :=
  let depth1 := depthOfByte (engine1.getD i 0)
  let depth2 := depthOfByte (engine2.getD i 0)
  let move1 :=
    if i = 0 then chooseAvailableElement (getElementFromCode depth1) s.p1.available
    else chooseAvailableElement (getElementByDepth (s.p2.moves.getD (i - 1) 0) depth1) s.p1.available
  let move2 :=
    if i = 0 then chooseAvailableElement (getElementFromCode depth2) s.p2.available
    else chooseAvailableElement (getElementByDepth (s.p1.moves.getD (i - 1) 0) depth2) s.p2.available
  if move1 = 0 ∨ move2 = 0 then none
  else
    let sc := addScore (determineWinner move1 move2) (s.p1Score, s.p2Score)
    some { p1 := s.p1.play move1, p2 := s.p2.play move2, p1Score := sc.1, p2Score := sc.2 }

/-- State of `simulateDepthGame` after `n` iterations of its loop, `none` once
an iteration has returned early. -/
def depthLoop (engine1 engine2 : List Nat) : Nat → Option DepthState
  | 0 => some { p1 := initialPlayer, p2 := initialPlayer, p1Score := 0, p2Score := 0 }
  | n + 1 => (depthLoop engine1 engine2 n).bind (fun s => depthRound engine1 engine2 s n)

/-- The statements of `simulateDepthGame` after the loop: the forced 13th move
of each player and its adjudication. -/
def depthFinish (s : DepthState) : DepthState :=
  let move1 := getLastElement s.p1.available
  let move2 := getLastElement s.p2.available
  let p1 := if move1 ≠ 0 then s.p1.play move1 else s.p1
  let p2 := if move2 ≠ 0 then s.p2.play move2 else s.p2
  let sc := addScore (determineWinner move1 move2) (s.p1Score, s.p2Score)
  { p1 := p1, p2 := p2, p1Score := sc.1, p2Score := sc.2 }

/-- Final local state of `simulateDepthGame` on two 12-byte codes, `none` when
a round returned early. -/
def depthFinal (engine1 engine2 : List Nat) : Option DepthState :=
  (depthLoop engine1 engine2 12).map depthFinish

/-- Function `simulateDepthGame`. -/
def simulateDepthGame (engine1 engine2 : List Nat) : Int × Int :=
  if engine1.length ≠ 12 ∨ engine2.length ≠ 12 then (-1, -1)
  else
    match depthFinal engine1 engine2 with
    | none => (-1, -1)
    | some s => (s.p1Score, s.p2Score)

/-- Lookup in the map literal `validMoves`; a missing key reads `false`. -/
def validMoves (m : Nat) : Bool :=
  m = cW ∨ m = cV ∨ m = cA ∨ m = cL ∨ m = cD

/-- Body of the 13-round loop of `simulateFixedGame` at index `i`. -/
def fixedRound (engine1 engine2 : List Nat) (s : Int × Int) (i : Nat) : Option (Int × Int) :=
  let move1 := engine1.getD i 0
  let move2 := engine2.getD i 0
  if !validMoves move1 || !validMoves move2 then none
  else some (addScore (determineWinner move1 move2) s)

/-- Scores of `simulateFixedGame` after `n` iterations of its loop, `none`
once an iteration has returned early. -/
def fixedLoop (engine1 engine2 : List Nat) : Nat → Option (Int × Int)
  | 0 => some (0, 0)
  | n + 1 => (fixedLoop engine1 engine2 n).bind (fun s => fixedRound engine1 engine2 s n)

/-- Function `simulateFixedGame`. -/
def simulateFixedGame (engine1 engine2 : List Nat) : Int × Int :=
  if engine1.length ≠ 13 ∨ engine2.length ≠ 13 then (-1, -1)
  else
    match fixedLoop engine1 engine2 13 with
    | none => (-1, -1)
    | some s => s

/-- Body of the 12-round loop of `simulateDepthGameToMoves` at index `i`; a
zero move is skipped, not recorded.  The result array `moves` of the source
is kept in the `moves` field of the player, which the source leaves unused in
this function. -/
def movesRound (engine opponent : List Nat) (p : Player) (i : Nat) : Player :=
  let depth := depthOfByte (engine.getD i 0)
  let move :=
    if i = 0 then chooseAvailableElement (getElementFromCode depth) p.available
    else chooseAvailableElement (getElementByDepth (opponent.getD (i - 1) 0) depth) p.available
  if move ≠ 0 then p.play move else p

/-- Player state of `simulateDepthGameToMoves` after `n` loop iterations. -/
def movesLoop (engine opponent : List Nat) : Nat → Player
  | 0 => initialPlayer
  | n + 1 => movesRound engine opponent (movesLoop engine opponent n) n

/-- The statements of `simulateDepthGameToMoves` after the loop. -/
def movesFinish (p : Player) : Player :=
  let move := getLastElement p.available
  if move ≠ 0 then
    { p with available := p.available.dec (moveToIndexD move)
             moves := p.moves.set p.moveCount move }
  else { p with moves := p.moves.set p.moveCount cW }

/-- Function `simulateDepthGameToMoves`. -/
def simulateDepthGameToMoves (engine opponent : List Nat) : List Nat :=
  if engine.length ≠ 12 ∨ opponent.length ≠ 13 then List.replicate 13 0
  else (movesFinish (movesLoop engine opponent 12)).moves

/-- Function `simulateGame`. -/
def simulateGame (engine1 engine2 : List Nat) : Int × Int :=
  if engine1.length = 12 ∧ engine2.length = 12 then simulateDepthGame engine1 engine2
  else if engine1.length = 13 ∧ engine2.length = 13 then simulateFixedGame engine1 engine2
  else if engine1.length = 12 ∧ engine2.length = 13 then
    let p1Moves := simulateDepthGameToMoves engine1 engine2
    if p1Moves.getD 12 0 = 0 then (-1, -1)
    else simulateFixedGame p1Moves engine2
  else if engine1.length = 13 ∧ engine2.length = 12 then
    let p2Moves := simulateDepthGameToMoves engine2 engine1
    if p2Moves.getD 12 0 = 0 then (-1, -1)
    else simulateFixedGame engine1 p2Moves
  else (-1, -1)

/-- Accumulators of the inner loop of `evaluateBatch` for one candidate. -/
structure Tally where
  totalScore : Int
  neverLoses : Bool
  wins : Int
deriving DecidableEq, Repr

/-- Body of the inner loop of `evaluateBatch` for one opponent; the second
component is the shared progress counter, which a skipped pair leaves alone.
The progress print has no effect on either. -/
def evalStep (engine : List Nat) (acc : Tally × Int) (offerEngine : List Nat) : Tally × Int :=
  let r := simulateGame engine offerEngine
  if r.1 = -1 ∨ r.2 = -1 then acc
  else
    let diff := r.1 - r.2
    let t := acc.1
    let t :=
      if r.1 > r.2 then { t with totalScore := t.totalScore + (diff + 10), wins := t.wins + 1 }
      else if r.1 < r.2 then { t with totalScore := t.totalScore + (diff - 10), neverLoses := false }
      else { t with totalScore := t.totalScore + r.1 }
    (t, acc.2 + 1)

/-- Body of the outer loop of `evaluateBatch` for one candidate: the state is
the list of results sent on `resultChan` so far and the progress counter. -/
def evalEngine (offerEngines : List (List Nat)) (st : List engineResult × Int)
    (engine : List Nat) : List engineResult × Int :=
  let r := offerEngines.foldl (evalStep engine) (⟨0, true, 0⟩, st.2)
  (st.1 ++ [{ engine := engine, score := r.1.totalScore,
              neverLoses := r.1.neverLoses, wins := r.1.wins }], r.2)

/-- Function `evaluateBatch`: the results sent on `resultChan`, in order, and
the final value of the progress counter. -/
def evaluateBatch (batch offerEngines : List (List Nat)) (progressComparisons : Int) :
    List engineResult × Int :=
  batch.foldl (evalEngine offerEngines) ([], progressComparisons)

/-- Bytes of an ASCII string literal. -/
def bytes (s : String) : List Nat := s.toList.map Char.toNat

/-! ## Slicing of the candidate list in `main` -/

/-- Constant `numThreads` of `main`. -/
def numThreads : Nat := 16

/-- Value `enginesPerThread` of `main` for `n` candidates. -/
def enginesPerThread (n : Nat) : Nat := (n + numThreads - 1) / numThreads

/-- Value `start` of worker `i`. -/
def threadStart (n i : Nat) : Nat := i * enginesPerThread n

/-- Value `end` of worker `i`, after the clamp `if end > len(inputEngines)`. -/
def threadEnd (n i : Nat) : Nat :=
  if threadStart n i + enginesPerThread n > n then n
  else threadStart n i + enginesPerThread n

/-- Go slice expression `xs[lo:hi]` for `lo ≤ hi ≤ len(xs)`. -/
def goSlice (xs : List (List Nat)) (lo hi : Nat) : List (List Nat) := (xs.drop lo).take (hi - lo)

/-- The batches handed to the workers by the loop `for i := 0; i < numThreads; i++`
of `main`, in order of `i`; a range with `start >= end` starts no worker. -/
def dispatch (inputEngines : List (List Nat)) : List (List (List Nat)) :=
  (List.range numThreads).filterMap (fun i =>
    if threadStart inputEngines.length i < threadEnd inputEngines.length i then
      some (goSlice inputEngines (threadStart inputEngines.length i)
        (threadEnd inputEngines.length i))
    else none)

/-! ## Auxiliary notions used in the statements and proofs -/

/-- Both scores are non-negative and together count at most `n` rounds. -/
def ScoreOK (n : Int) (s : Int × Int) : Prop := 0 ≤ s.1 ∧ 0 ≤ s.2 ∧ s.1 + s.2 ≤ n

/-- The same local state seen from the other player's side. -/
def DepthState.swap (s : DepthState) : DepthState :=
  { p1 := s.p2, p2 := s.p1, p1Score := s.p2Score, p2Score := s.p1Score }

/-- The move an adaptive engine picks in round `i`, given the opponent's move
`prev` of the round before and its own inventory: the expression both
`simulateDepthGame` and `simulateDepthGameToMoves` evaluate for a player. -/
def roundMove (engine : List Nat) (i : Nat) (prev : Nat) (available : Inventory) : Nat :=
  if i = 0 then chooseAvailableElement (getElementFromCode (depthOfByte (engine.getD i 0))) available
  else chooseAvailableElement (getElementByDepth prev (depthOfByte (engine.getD i 0))) available

/-- Amount one valid match result adds to a candidate's score, in the words of
the specification: differential plus 10 for a win, differential minus 10 for
a loss, the candidate's own score for a tie. -/
def matchScore (r : Int × Int) : Int :=
  if r.1 > r.2 then (r.1 - r.2) + 10 else if r.1 < r.2 then (r.1 - r.2) - 10 else r.1

/-- The opponents of the panel whose match against `engine` is not the
sentinel (-1, -1). -/
def validOpponents (engine : List Nat) (offerEngines : List (List Nat)) : List (List Nat) :=
  offerEngines.filter (fun o => decide (simulateGame engine o ≠ (-1, -1)))

/-- Specified score of a candidate: the sum of `matchScore` over its valid
matches. -/
def panelScore (engine : List Nat) (offerEngines : List (List Nat)) : Int :=
  ((validOpponents engine offerEngines).map (fun o => matchScore (simulateGame engine o))).sum

/-- Specified win count of a candidate: the number of valid matches it wins. -/
def panelWins (engine : List Nat) (offerEngines : List (List Nat)) : Int :=
  (((validOpponents engine offerEngines).filter
    (fun o => decide ((simulateGame engine o).1 > (simulateGame engine o).2))).length : Nat)

/-- Specified never-loses flag of a candidate: no opponent of the panel gives
a valid result in which the candidate's score is strictly lower. -/
def panelNeverLoses (engine : List Nat) (offerEngines : List (List Nat)) : Bool :=
  decide (∀ o ∈ offerEngines,
    ¬ (simulateGame engine o ≠ (-1, -1) ∧ (simulateGame engine o).1 < (simulateGame engine o).2))

/-- Every count of the inventory is non-negative. -/
def Inventory.Nonneg (inv : Inventory) : Prop :=
  0 ≤ inv.w ∧ 0 ≤ inv.v ∧ 0 ≤ inv.a ∧ 0 ≤ inv.l ∧ 0 ≤ inv.d

/-- Number of moves the inventory still allows. -/
def Inventory.total (inv : Inventory) : Int := inv.w + inv.v + inv.a + inv.l + inv.d

/-- One of the four cyclic symbols W, V, A, L. -/
def IsCyclic (m : Nat) : Prop := m = cW ∨ m = cV ∨ m = cA ∨ m = cL

/-- Bookkeeping invariant of a player who has recorded `k` moves: the array
holds those moves followed by zero bytes, every recorded move is one of the
five symbols, each count is non-negative, and for every symbol the remaining
count plus its occurrences among the recorded moves is the initial count. -/
def PlayerInv (k : Nat) (p : Player) : Prop :=
  p.moveCount = k ∧ p.available.Nonneg ∧ p.available.total = 13 - (k : Int) ∧
  ∃ played : List Nat, played.length = k ∧ p.moves = played ++ List.replicate (13 - k) 0 ∧
    (∀ m ∈ played, validMoves m = true) ∧
    (played.count cW : Int) + p.available.w = 3 ∧
    (played.count cV : Int) + p.available.v = 3 ∧
    (played.count cA : Int) + p.available.a = 3 ∧
    (played.count cL : Int) + p.available.l = 3 ∧
    (played.count cD : Int) + p.available.d = 1

/-- A 12-byte code over the digits 1..5. -/
def IsDepthCode (e : List Nat) : Prop := e.length = 12 ∧ ∀ c ∈ e, 49 ≤ c ∧ c ≤ 53

/-- A 13-byte code over the symbols W, V, A, L, D. -/
def IsFixedCode (f : List Nat) : Prop := f.length = 13 ∧ ∀ c ∈ f, validMoves c = true

instance (e : List Nat) : Decidable (IsDepthCode e) := by
  unfold IsDepthCode
  infer_instance

instance (f : List Nat) : Decidable (IsFixedCode f) := by
  unfold IsFixedCode
  infer_instance

/-- Invariant of an adaptive player driven by the code `e` after `n` rounds:
the bookkeeping invariant, and the wildcard is still in the inventory unless
one of the first `n` digits was a 5. -/
def AdaptiveInv (e : List Nat) (n : Nat) (p : Player) : Prop :=
  PlayerInv n p ∧ (p.available.d = 1 ∨ 53 ∈ e.take n)

/-- A complete move sequence that uses up the inventory: 13 entries, each one
of the five symbols, three of each cyclic symbol and one wildcard. -/
def FullInventoryUsed (moves : List Nat) : Prop :=
  moves.length = 13 ∧ (∀ m ∈ moves, validMoves m = true) ∧
  moves.count cW = 3 ∧ moves.count cV = 3 ∧ moves.count cA = 3 ∧ moves.count cL = 3 ∧
  moves.count cD = 1

/-- Normalisation of the previous move in `getElementByDepth`: the wildcard
counts as L, a cyclic symbol as itself. -/
def normElement (x : Nat) : Nat := if x = cD then cL else x

/-- The depth-1 rotation. -/
def rot1 (x : Nat) : Nat := getElementByDepth x 1

/-- Substitution policy in the words of the specification: the desired element
if it is in stock, otherwise the first of its three successive depth-1
rotations that is in stock, otherwise the wildcard if it is in stock,
otherwise 0. -/
def choosePolicy (t : Nat) (inv : Inventory) : Nat :=
  if inv.get (moveToIndexD t) > 0 then t
  else if inv.get (moveToIndexD (rot1 t)) > 0 then rot1 t
  else if inv.get (moveToIndexD (rot1 (rot1 t))) > 0 then rot1 (rot1 t)
  else if inv.get (moveToIndexD (rot1 (rot1 (rot1 t)))) > 0 then rot1 (rot1 (rot1 t))
  else if inv.d > 0 then cD
  else 0

/-- Accounting of a player's inventory against the whole `moves` array (its
unwritten entries are zero bytes): counts are non-negative, at most 13 moves
are recorded, and each symbol's remaining count plus its occurrences in
`moves` is the initial count. -/
def Player.Accounted (p : Player) : Prop :=
  p.available.Nonneg ∧ p.moveCount ≤ 13 ∧
  (p.moves.count cW : Int) + p.available.w = 3 ∧
  (p.moves.count cV : Int) + p.available.v = 3 ∧
  (p.moves.count cA : Int) + p.available.a = 3 ∧
  (p.moves.count cL : Int) + p.available.l = 3 ∧
  (p.moves.count cD : Int) + p.available.d = 1

/-- A well-formed engine code: adaptive or fixed. -/
def WellFormed (e : List Nat) : Prop := IsDepthCode e ∨ IsFixedCode e

/-! ## Adjudication lemmas -/

theorem moveToIndex_cases (m : Nat) :
    (m = cW ∧ moveToIndex m = some 0) ∨ (m = cV ∧ moveToIndex m = some 1) ∨
    (m = cA ∧ moveToIndex m = some 2) ∨ (m = cL ∧ moveToIndex m = some 3) ∨
    (m = cD ∧ moveToIndex m = some 4) ∨
    ((m ≠ cW ∧ m ≠ cV ∧ m ≠ cA ∧ m ≠ cL ∧ m ≠ cD) ∧ moveToIndex m = none) := by
  unfold moveToIndex
  by_cases h1 : m = cW
  · simp [h1]
  by_cases h2 : m = cV
  · simp [h2]
  by_cases h3 : m = cA
  · simp [h3]
  by_cases h4 : m = cL
  · simp [h4]
  by_cases h5 : m = cD
  · simp [h5]
  simp [h1, h2, h3, h4, h5]

theorem determineWinner_table (a b : Nat) :
    (determineWinner a b = 1 ↔
      (a = cW ∧ b = cV) ∨ (a = cV ∧ b = cA) ∨ (a = cA ∧ b = cL) ∨ (a = cL ∧ b = cW)) ∧
    (determineWinner a b = 2 ↔
      (b = cW ∧ a = cV) ∨ (b = cV ∧ a = cA) ∨ (b = cA ∧ a = cL) ∨ (b = cL ∧ a = cW)) ∧
    (determineWinner a b = 0 ∨ determineWinner a b = 1 ∨ determineWinner a b = 2) := by
  rcases moveToIndex_cases a with ⟨ha, ia⟩ | ⟨ha, ia⟩ | ⟨ha, ia⟩ | ⟨ha, ia⟩ | ⟨ha, ia⟩ | ⟨ha, ia⟩ <;>
  rcases moveToIndex_cases b with ⟨hb, ib⟩ | ⟨hb, ib⟩ | ⟨hb, ib⟩ | ⟨hb, ib⟩ | ⟨hb, ib⟩ | ⟨hb, ib⟩ <;>
  simp [determineWinner, ia, ib, moveWins] <;> simp_all

theorem determineWinner_range (a b : Nat) :
    determineWinner a b = 0 ∨ determineWinner a b = 1 ∨ determineWinner a b = 2 :=
  (determineWinner_table a b).2.2

theorem determineWinner_swap_one (a b : Nat) :
    determineWinner a b = 1 ↔ determineWinner b a = 2 := by
  rw [(determineWinner_table a b).1, (determineWinner_table b a).2.1]

theorem determineWinner_swap_two (a b : Nat) :
    determineWinner a b = 2 ↔ determineWinner b a = 1 := by
  rw [(determineWinner_table a b).2.1, (determineWinner_table b a).1]

theorem determineWinner_self (a : Nat) : determineWinner a a = 0 := by
  have h := determineWinner_table a a
  rcases h.2.2 with h0 | h1 | h2
  · exact h0
  · have := h.1.1 h1
    simp only [cW, cV, cA, cL, cD] at this
    clear h h1
    omega
  · have := h.2.1.1 h2
    simp only [cW, cV, cA, cL, cD] at this
    clear h h2
    omega

theorem validMoves_iff (m : Nat) :
    validMoves m = true ↔ m = cW ∨ m = cV ∨ m = cA ∨ m = cL ∨ m = cD := by
  simp [validMoves]

theorem determineWinner_invalid (a b : Nat)
    (h : validMoves a = false ∨ validMoves b = false) : determineWinner a b = 0 := by
  have ht := determineWinner_table a b
  rcases ht.2.2 with h0 | h1 | h2
  · exact h0
  · have := ht.1.1 h1
    simp only [validMoves, cW, cV, cA, cL, cD, decide_eq_false_iff_not] at this h
    clear ht h1
    omega
  · have := ht.2.1.1 h2
    simp only [validMoves, cW, cV, cA, cL, cD, decide_eq_false_iff_not] at this h
    clear ht h2
    omega

theorem determineWinner_invalid_or_wild (a b : Nat) (h : a = cD ∨ b = cD) :
    determineWinner a b = 0 := by
  have ht := determineWinner_table a b
  rcases ht.2.2 with h0 | h1 | h2
  · exact h0
  · have := ht.1.1 h1
    simp only [cW, cV, cA, cL, cD] at this h
    clear ht h1
    omega
  · have := ht.2.1.1 h2
    simp only [cW, cV, cA, cL, cD] at this h
    clear ht h2
    omega

/-! ## Score bookkeeping -/

theorem addScore_swap (a b : Nat) (s : Int × Int) :
    addScore (determineWinner b a) s.swap = (addScore (determineWinner a b) s).swap := by
  have h1 := determineWinner_swap_one a b
  have h2 := determineWinner_swap_two a b
  rcases determineWinner_range a b with h | h | h
  · have g : determineWinner b a = 0 := by
      rcases determineWinner_range b a with g | g | g
      · exact g
      · rw [h2.2 g] at h
        omega
      · rw [h1.2 g] at h
        omega
    simp [addScore, h, g]
  · simp [addScore, h, h1.1 h]
  · simp [addScore, h, h2.1 h]

theorem addScore_ok (a b : Nat) (n : Int) (s : Int × Int) (h : ScoreOK n s) :
    ScoreOK (n + 1) (addScore (determineWinner a b) s) := by
  obtain ⟨h1, h2, h3⟩ := h
  unfold ScoreOK addScore
  split_ifs <;> refine ⟨?_, ?_, ?_⟩ <;> (try dsimp only) <;> omega

theorem addScore_tie (a : Nat) (s : Int × Int) : addScore (determineWinner a a) s = s := by
  simp [addScore, determineWinner_self]

theorem ScoreOK_not_sentinel (n : Int) (s : Int × Int) (h : ScoreOK n s) :
    s ≠ (-1, -1) ∧ s.1 ≠ -1 ∧ s.2 ≠ -1 := by
  obtain ⟨h1, h2, _⟩ := h
  refine ⟨?_, by omega, by omega⟩
  intro hs
  rw [hs] at h1
  simp at h1

/-! ## Fixed-versus-fixed games -/

theorem fixedRound_swap (e1 e2 : List Nat) (s : Int × Int) (i : Nat) :
    fixedRound e2 e1 s.swap i = (fixedRound e1 e2 s i).map Prod.swap := by
  unfold fixedRound
  generalize e1.getD i 0 = a
  generalize e2.getD i 0 = b
  cases h1 : validMoves a <;> cases h2 : validMoves b <;> simp [h1, h2, addScore_swap]

theorem fixedLoop_swap (e1 e2 : List Nat) (n : Nat) :
    fixedLoop e2 e1 n = (fixedLoop e1 e2 n).map Prod.swap := by
  induction n with
  | zero => simp [fixedLoop]
  | succ n ih =>
    simp only [fixedLoop, ih]
    cases h : fixedLoop e1 e2 n with
    | none => simp
    | some s =>
      simp only [Option.map_some', Option.some_bind]
      exact fixedRound_swap e1 e2 s n

theorem fixedLoop_ok (e1 e2 : List Nat) (n : Nat) (s : Int × Int)
    (h : fixedLoop e1 e2 n = some s) : ScoreOK n s := by
  induction n generalizing s with
  | zero =>
    simp [fixedLoop] at h
    subst h
    simp [ScoreOK]
  | succ n ih =>
    simp only [fixedLoop] at h
    cases h0 : fixedLoop e1 e2 n with
    | none => simp [h0] at h
    | some s0 =>
      simp only [h0, Option.some_bind, fixedRound] at h
      split_ifs at h
      simp only [Option.some.injEq] at h
      subst h
      have := addScore_ok (e1.getD n 0) (e2.getD n 0) n s0 (ih s0 h0)
      simpa using this

theorem simulateFixedGame_swap (e1 e2 : List Nat) :
    simulateFixedGame e2 e1 = (simulateFixedGame e1 e2).swap := by
  unfold simulateFixedGame
  by_cases h : e1.length ≠ 13 ∨ e2.length ≠ 13
  · have h2 : e2.length ≠ 13 ∨ e1.length ≠ 13 := h.symm
    simp only [h, h2, if_true, Prod.swap_prod_mk]
  · have h2 : ¬ (e2.length ≠ 13 ∨ e1.length ≠ 13) := fun g => h g.symm
    simp only [h, h2, if_false, fixedLoop_swap e1 e2 13]
    cases fixedLoop e1 e2 13 <;> simp

theorem simulateFixedGame_range (e1 e2 : List Nat) :
    simulateFixedGame e1 e2 = (-1, -1) ∨ ScoreOK 13 (simulateFixedGame e1 e2) := by
  unfold simulateFixedGame
  split_ifs with h
  · exact Or.inl rfl
  · cases h0 : fixedLoop e1 e2 13 with
    | none => exact Or.inl rfl
    | some s => exact Or.inr (fixedLoop_ok e1 e2 13 s h0)

/-- A round with an invalid symbol on either side ends the fixed loop for good. -/
theorem fixedLoop_none_mono (e1 e2 : List Nat) (n m : Nat) (hnm : n ≤ m)
    (h : fixedLoop e1 e2 n = none) : fixedLoop e1 e2 m = none := by
  induction m with
  | zero =>
    have : n = 0 := by omega
    subst this
    exact h
  | succ m ih =>
    by_cases hn : n = m + 1
    · subst hn
      exact h
    · have := ih (by omega)
      simp [fixedLoop, this]

theorem fixedLoop_invalid (e1 e2 : List Nat) (i n : Nat) (hi : i < n)
    (h : validMoves (e1.getD i 0) = false ∨ validMoves (e2.getD i 0) = false) :
    fixedLoop e1 e2 n = none := by
  apply fixedLoop_none_mono e1 e2 (i + 1) n hi
  simp only [fixedLoop]
  cases h0 : fixedLoop e1 e2 i with
  | none => simp
  | some s =>
    simp only [Option.some_bind, fixedRound]
    generalize e1.getD i 0 = a at h
    generalize e2.getD i 0 = b at h
    rcases h with h | h <;> simp [h]

theorem simulateFixedGame_invalid (e1 e2 : List Nat) (i : Nat) (hi : i < 13)
    (h : validMoves (e1.getD i 0) = false ∨ validMoves (e2.getD i 0) = false) :
    simulateFixedGame e1 e2 = (-1, -1) := by
  unfold simulateFixedGame
  split_ifs
  · rfl
  · rw [fixedLoop_invalid e1 e2 i 13 hi h]

/-! ## Adaptive-versus-adaptive games: symmetry, self-play and score bounds -/

theorem depthRound_eq (e1 e2 : List Nat) (s : DepthState) (i : Nat) :
    depthRound e1 e2 s i =
      if roundMove e1 i (s.p2.moves.getD (i - 1) 0) s.p1.available = 0 ∨
          roundMove e2 i (s.p1.moves.getD (i - 1) 0) s.p2.available = 0 then none
      else some
        { p1 := s.p1.play (roundMove e1 i (s.p2.moves.getD (i - 1) 0) s.p1.available)
          p2 := s.p2.play (roundMove e2 i (s.p1.moves.getD (i - 1) 0) s.p2.available)
          p1Score := (addScore (determineWinner
            (roundMove e1 i (s.p2.moves.getD (i - 1) 0) s.p1.available)
            (roundMove e2 i (s.p1.moves.getD (i - 1) 0) s.p2.available))
            (s.p1Score, s.p2Score)).1
          p2Score := (addScore (determineWinner
            (roundMove e1 i (s.p2.moves.getD (i - 1) 0) s.p1.available)
            (roundMove e2 i (s.p1.moves.getD (i - 1) 0) s.p2.available))
            (s.p1Score, s.p2Score)).2 } := by
  rfl

theorem movesRound_eq (engine opponent : List Nat) (p : Player) (i : Nat) :
    movesRound engine opponent p i =
      if roundMove engine i (opponent.getD (i - 1) 0) p.available ≠ 0 then
        p.play (roundMove engine i (opponent.getD (i - 1) 0) p.available)
      else p := by
  rfl

theorem depthRound_swap (e1 e2 : List Nat) (s : DepthState) (i : Nat) :
    depthRound e2 e1 s.swap i = (depthRound e1 e2 s i).map DepthState.swap := by
  rw [depthRound_eq, depthRound_eq]
  simp only [DepthState.swap]
  generalize roundMove e1 i (s.p2.moves.getD (i - 1) 0) s.p1.available = m1
  generalize roundMove e2 i (s.p1.moves.getD (i - 1) 0) s.p2.available = m2
  by_cases h : m1 = 0 ∨ m2 = 0
  · have h2 : m2 = 0 ∨ m1 = 0 := h.symm
    simp only [h, h2, if_true, Option.map_none']
  · have h2 : ¬ (m2 = 0 ∨ m1 = 0) := fun g => h g.symm
    have hs := addScore_swap m1 m2 (s.p1Score, s.p2Score)
    simp only [Prod.swap_prod_mk] at hs
    simp only [h, h2, if_false, Option.map_some', hs, Prod.fst_swap, Prod.snd_swap,
      DepthState.swap]

theorem depthLoop_swap (e1 e2 : List Nat) (n : Nat) :
    depthLoop e2 e1 n = (depthLoop e1 e2 n).map DepthState.swap := by
  induction n with
  | zero => simp [depthLoop, DepthState.swap]
  | succ n ih =>
    simp only [depthLoop, ih]
    cases h : depthLoop e1 e2 n with
    | none => simp
    | some s =>
      simp only [Option.map_some', Option.some_bind]
      exact depthRound_swap e1 e2 s n

theorem depthFinish_swap (s : DepthState) :
    depthFinish s.swap = (depthFinish s).swap := by
  have hs := addScore_swap (getLastElement s.p1.available) (getLastElement s.p2.available)
    (s.p1Score, s.p2Score)
  simp only [Prod.swap_prod_mk] at hs
  simp only [depthFinish, DepthState.swap, hs, Prod.fst_swap, Prod.snd_swap]

theorem depthFinal_swap (e1 e2 : List Nat) :
    depthFinal e2 e1 = (depthFinal e1 e2).map DepthState.swap := by
  simp only [depthFinal, depthLoop_swap e1 e2 12]
  cases depthLoop e1 e2 12 with
  | none => simp
  | some s => simp [depthFinish_swap]

theorem simulateDepthGame_swap (e1 e2 : List Nat) :
    simulateDepthGame e2 e1 = (simulateDepthGame e1 e2).swap := by
  unfold simulateDepthGame
  by_cases h : e1.length ≠ 12 ∨ e2.length ≠ 12
  · have h2 : e2.length ≠ 12 ∨ e1.length ≠ 12 := h.symm
    simp only [h, h2, if_true, Prod.swap_prod_mk]
  · have h2 : ¬ (e2.length ≠ 12 ∨ e1.length ≠ 12) := fun g => h g.symm
    simp only [h, h2, if_false, depthFinal_swap e1 e2]
    cases depthFinal e1 e2 <;> simp [DepthState.swap]

theorem depthLoop_ok (e1 e2 : List Nat) (n : Nat) (s : DepthState)
    (h : depthLoop e1 e2 n = some s) : ScoreOK n (s.p1Score, s.p2Score) := by
  induction n generalizing s with
  | zero =>
    simp [depthLoop] at h
    subst h
    simp [ScoreOK]
  | succ n ih =>
    simp only [depthLoop] at h
    cases h0 : depthLoop e1 e2 n with
    | none => simp [h0] at h
    | some s0 =>
      simp only [h0, Option.some_bind, depthRound_eq] at h
      split_ifs at h
      simp only [Option.some.injEq] at h
      subst h
      exact addScore_ok _ _ n (s0.p1Score, s0.p2Score) (ih s0 h0)

theorem depthFinish_ok (n : Int) (s : DepthState) (h : ScoreOK n (s.p1Score, s.p2Score)) :
    ScoreOK (n + 1) ((depthFinish s).p1Score, (depthFinish s).p2Score) := by
  have := addScore_ok (getLastElement s.p1.available) (getLastElement s.p2.available) n _ h
  simpa [depthFinish] using this

theorem simulateDepthGame_range (e1 e2 : List Nat) :
    simulateDepthGame e1 e2 = (-1, -1) ∨ ScoreOK 13 (simulateDepthGame e1 e2) := by
  unfold simulateDepthGame
  split_ifs with h
  · exact Or.inl rfl
  · simp only [depthFinal]
    cases h0 : depthLoop e1 e2 12 with
    | none => exact Or.inl rfl
    | some s =>
      right
      have := depthFinish_ok 12 s (depthLoop_ok e1 e2 12 s h0)
      simpa using this

/-- In self-play both players are in the same state and nobody has scored. -/
theorem depthLoop_self (e : List Nat) (n : Nat) (s : DepthState)
    (h : depthLoop e e n = some s) : s.p1 = s.p2 ∧ s.p1Score = 0 ∧ s.p2Score = 0 := by
  induction n generalizing s with
  | zero =>
    simp [depthLoop] at h
    subst h
    simp
  | succ n ih =>
    simp only [depthLoop] at h
    cases h0 : depthLoop e e n with
    | none => simp [h0] at h
    | some s0 =>
      obtain ⟨hp, h1, h2⟩ := ih s0 h0
      simp only [h0, Option.some_bind, depthRound_eq, hp, h1, h2, addScore_tie] at h
      split_ifs at h
      simp only [Option.some.injEq] at h
      subst h
      simp

theorem depthFinish_self (s : DepthState) (h : s.p1 = s.p2 ∧ s.p1Score = 0 ∧ s.p2Score = 0) :
    (depthFinish s).p1 = (depthFinish s).p2 ∧ (depthFinish s).p1Score = 0 ∧
      (depthFinish s).p2Score = 0 := by
  obtain ⟨hp, h1, h2⟩ := h
  simp [depthFinish, hp, h1, h2, addScore_tie]

theorem fixedLoop_self (e : List Nat) (n : Nat) (s : Int × Int)
    (h : fixedLoop e e n = some s) : s = (0, 0) := by
  induction n generalizing s with
  | zero =>
    simp [fixedLoop] at h
    exact h.symm
  | succ n ih =>
    simp only [fixedLoop] at h
    cases h0 : fixedLoop e e n with
    | none => simp [h0] at h
    | some s0 =>
      have := ih s0 h0
      subst this
      simp only [h0, Option.some_bind, fixedRound, addScore_tie] at h
      split_ifs at h
      simp only [Option.some.injEq] at h
      exact h.symm

/-! ## The dispatcher `simulateGame` -/

theorem simulateGame_eq (e1 e2 : List Nat) :
    simulateGame e1 e2 =
      if e1.length = 12 ∧ e2.length = 12 then simulateDepthGame e1 e2
      else if e1.length = 13 ∧ e2.length = 13 then simulateFixedGame e1 e2
      else if e1.length = 12 ∧ e2.length = 13 then
        (if (simulateDepthGameToMoves e1 e2).getD 12 0 = 0 then (-1, -1)
         else simulateFixedGame (simulateDepthGameToMoves e1 e2) e2)
      else if e1.length = 13 ∧ e2.length = 12 then
        (if (simulateDepthGameToMoves e2 e1).getD 12 0 = 0 then (-1, -1)
         else simulateFixedGame e1 (simulateDepthGameToMoves e2 e1))
      else (-1, -1) := by
  rfl

theorem simulateGame_range_aux (e1 e2 : List Nat) :
    simulateGame e1 e2 = (-1, -1) ∨ ScoreOK 13 (simulateGame e1 e2) := by
  rw [simulateGame_eq]
  split_ifs
  · exact simulateDepthGame_range e1 e2
  · exact simulateFixedGame_range e1 e2
  · exact Or.inl rfl
  · exact simulateFixedGame_range _ e2
  · exact Or.inl rfl
  · exact simulateFixedGame_range e1 _
  · exact Or.inl rfl

theorem simulateGame_sentinel_iff (e1 e2 : List Nat) :
    ((simulateGame e1 e2).1 = -1 ∨ (simulateGame e1 e2).2 = -1) ↔
      simulateGame e1 e2 = (-1, -1) := by
  constructor
  · intro h
    rcases simulateGame_range_aux e1 e2 with hs | hs
    · exact hs
    · have := ScoreOK_not_sentinel 13 _ hs
      rcases h with h | h
      · exact absurd h this.2.1
      · exact absurd h this.2.2
  · intro h
    rw [h]
    exact Or.inl rfl

theorem simulateGame_swap_same (e1 e2 : List Nat)
    (h : (e1.length = 12 ∧ e2.length = 12) ∨ (e1.length = 13 ∧ e2.length = 13)) :
    simulateGame e2 e1 = (simulateGame e1 e2).swap := by
  rw [simulateGame_eq, simulateGame_eq]
  rcases h with ⟨h1, h2⟩ | ⟨h1, h2⟩
  · simp only [h1, h2, and_self, if_true]
    exact simulateDepthGame_swap e1 e2
  · simp only [h1, h2, and_self, if_true]
    norm_num
    exact simulateFixedGame_swap e1 e2

theorem movesLoop_length (e f : List Nat) (n : Nat) : (movesLoop e f n).moves.length = 13 := by
  induction n with
  | zero => simp [movesLoop, initialPlayer]
  | succ n ih =>
    simp only [movesLoop, movesRound_eq]
    split_ifs
    · simpa [Player.play] using ih
    · exact ih

theorem simulateDepthGameToMoves_length (e f : List Nat) :
    (simulateDepthGameToMoves e f).length = 13 := by
  unfold simulateDepthGameToMoves
  split_ifs
  · simp
  · simp only [movesFinish]
    split_ifs <;> simpa using movesLoop_length e f 12

theorem validMoves_zero : validMoves 0 = false := by decide

theorem simulateGame_self (e : List Nat) :
    simulateGame e e = (0, 0) ∨ simulateGame e e = (-1, -1) := by
  rw [simulateGame_eq]
  by_cases h12 : e.length = 12
  · simp only [h12, and_self, if_true]
    unfold simulateDepthGame
    simp only [h12, ne_eq, not_true_eq_false, or_self, if_false, depthFinal]
    cases h0 : depthLoop e e 12 with
    | none => exact Or.inr rfl
    | some s =>
      left
      obtain ⟨_, h1, h2⟩ := depthFinish_self s (depthLoop_self e 12 s h0)
      simp [h1, h2]
  · by_cases h13 : e.length = 13
    · simp only [h13, and_self, if_true]
      norm_num
      unfold simulateFixedGame
      simp only [h13, ne_eq, not_true_eq_false, or_self, if_false]
      cases h0 : fixedLoop e e 13 with
      | none => exact Or.inr rfl
      | some s => exact Or.inl (fixedLoop_self e 13 s h0)
    · simp [h12, h13]

theorem simulateGame_depth (e1 e2 : List Nat) (h1 : e1.length = 12) (h2 : e2.length = 12) :
    simulateGame e1 e2 = simulateDepthGame e1 e2 := by
  rw [simulateGame_eq, if_pos ⟨h1, h2⟩]

theorem simulateGame_fixed (e1 e2 : List Nat) (h1 : e1.length = 13) (h2 : e2.length = 13) :
    simulateGame e1 e2 = simulateFixedGame e1 e2 := by
  rw [simulateGame_eq, if_neg (by omega), if_pos ⟨h1, h2⟩]

theorem simulateGame_mixed (e f : List Nat) (he : e.length = 12) (hf : f.length = 13) :
    simulateGame e f =
      if (simulateDepthGameToMoves e f).getD 12 0 = 0 then (-1, -1)
      else simulateFixedGame (simulateDepthGameToMoves e f) f := by
  rw [simulateGame_eq, if_neg (by omega), if_neg (by omega), if_pos ⟨he, hf⟩]

theorem simulateGame_mixed_rev (e f : List Nat) (he : e.length = 12) (hf : f.length = 13) :
    simulateGame f e =
      if (simulateDepthGameToMoves e f).getD 12 0 = 0 then (-1, -1)
      else simulateFixedGame f (simulateDepthGameToMoves e f) := by
  rw [simulateGame_eq, if_neg (by omega), if_neg (by omega), if_neg (by omega), if_pos ⟨hf, he⟩]

theorem depthOfByte_digit (c : Nat) (h : 49 ≤ c ∧ c ≤ 53) : depthOfByte c = c - 48 := by
  unfold depthOfByte
  omega

theorem getElementFromCode_cyclic (d : Nat) (h : 1 ≤ d ∧ d ≤ 4) :
    IsCyclic (getElementFromCode d) := by
  obtain ⟨h1, h2⟩ := h
  unfold IsCyclic
  interval_cases d <;> simp [getElementFromCode, depthToElement]

theorem getElementByDepth_cyclic (prev d : Nat) (hp : validMoves prev = true)
    (h : 1 ≤ d ∧ d ≤ 4) : IsCyclic (getElementByDepth prev d) := by
  obtain ⟨h1, h2⟩ := h
  rw [validMoves_iff] at hp
  unfold IsCyclic
  rcases hp with rfl | rfl | rfl | rfl | rfl <;> interval_cases d <;>
    simp [getElementByDepth, elementsDepth]

theorem getElementFromCode_five : getElementFromCode 5 = cD := by decide

theorem getElementByDepth_five (prev : Nat) : getElementByDepth prev 5 = cD := by
  simp [getElementByDepth]

theorem elementsDepthD_W : elementsDepthD cW 1 = cL := by decide
theorem elementsDepthD_V : elementsDepthD cV 1 = cW := by decide
theorem elementsDepthD_A : elementsDepthD cA 1 = cV := by decide
theorem elementsDepthD_L : elementsDepthD cL 1 = cA := by decide
theorem elementsDepthD_D : elementsDepthD cD 1 = 0 := by decide
theorem elementsDepthD_zero : elementsDepthD 0 1 = 0 := by decide

theorem moveToIndexD_W : moveToIndexD cW = 0 := by decide
theorem moveToIndexD_V : moveToIndexD cV = 1 := by decide
theorem moveToIndexD_A : moveToIndexD cA = 2 := by decide
theorem moveToIndexD_L : moveToIndexD cL = 3 := by decide
theorem moveToIndexD_D : moveToIndexD cD = 4 := by decide
theorem moveToIndexD_zero : moveToIndexD 0 = 0 := by decide

theorem chooseLoop_zero (inv : Inventory) (c : Nat) : chooseLoop inv 0 c = none := rfl

theorem chooseLoop_succ (inv : Inventory) (n c : Nat) :
    chooseLoop inv (n + 1) c =
      if inv.get (moveToIndexD (elementsDepthD c 1)) > 0 then some (elementsDepthD c 1)
      else chooseLoop inv n (elementsDepthD c 1) := rfl

theorem chooseLoop_five (inv : Inventory) (c : Nat) :
    chooseLoop inv 5 c =
      if inv.get (moveToIndexD (elementsDepthD c 1)) > 0 then some (elementsDepthD c 1)
      else if inv.get (moveToIndexD (elementsDepthD (elementsDepthD c 1) 1)) > 0 then
        some (elementsDepthD (elementsDepthD c 1) 1)
      else if inv.get (moveToIndexD (elementsDepthD (elementsDepthD (elementsDepthD c 1) 1) 1)) > 0
        then some (elementsDepthD (elementsDepthD (elementsDepthD c 1) 1) 1)
      else if inv.get (moveToIndexD (elementsDepthD (elementsDepthD (elementsDepthD
          (elementsDepthD c 1) 1) 1) 1)) > 0
        then some (elementsDepthD (elementsDepthD (elementsDepthD (elementsDepthD c 1) 1) 1) 1)
      else if inv.get (moveToIndexD (elementsDepthD (elementsDepthD (elementsDepthD
          (elementsDepthD (elementsDepthD c 1) 1) 1) 1) 1)) > 0
        then some (elementsDepthD (elementsDepthD (elementsDepthD (elementsDepthD
          (elementsDepthD c 1) 1) 1) 1) 1)
      else none := rfl

theorem chooseAvailableElement_eq (t : Nat) (inv : Inventory) :
    chooseAvailableElement t inv =
      if inv.get (moveToIndexD t) > 0 then t
      else match chooseLoop inv 5 t with
        | some c => c
        | none => if inv.get 4 > 0 then cD else 0 := rfl

theorem chooseAvailableElement_cyclic (t : Nat) (inv : Inventory) (ht : IsCyclic t)
    (hn : inv.Nonneg) (hpos : 0 < inv.w + inv.v + inv.a + inv.l) :
    IsCyclic (chooseAvailableElement t inv) ∧
      0 < inv.get (moveToIndexD (chooseAvailableElement t inv)) := by
  obtain ⟨w, v, a, l, d⟩ := inv
  obtain ⟨h1, h2, h3, h4, h5⟩ := hn
  simp only at h1 h2 h3 h4 h5 hpos
  have cyW : IsCyclic cW := Or.inl rfl
  have cyV : IsCyclic cV := Or.inr (Or.inl rfl)
  have cyA : IsCyclic cA := Or.inr (Or.inr (Or.inl rfl))
  have cyL : IsCyclic cL := Or.inr (Or.inr (Or.inr rfl))
  rcases ht with rfl | rfl | rfl | rfl <;>
    simp only [chooseAvailableElement_eq, chooseLoop_five, elementsDepthD_W, elementsDepthD_V,
      elementsDepthD_A, elementsDepthD_L, moveToIndexD_W, moveToIndexD_V, moveToIndexD_A,
      moveToIndexD_L, Inventory.get] <;>
    split_ifs <;>
    first
    | exact ⟨cyW, by simpa [moveToIndexD_W, Inventory.get] using ‹w > 0›⟩
    | exact ⟨cyV, by simpa [moveToIndexD_V, Inventory.get] using ‹v > 0›⟩
    | exact ⟨cyA, by simpa [moveToIndexD_A, Inventory.get] using ‹a > 0›⟩
    | exact ⟨cyL, by simpa [moveToIndexD_L, Inventory.get] using ‹l > 0›⟩
    | (exfalso; omega)

theorem chooseAvailableElement_wild (inv : Inventory) (h : 0 < inv.d) :
    chooseAvailableElement cD inv = cD := by
  simp [chooseAvailableElement, moveToIndexD, moveToIndex, Inventory.get, h]

theorem Player.play_inv (k : Nat) (p : Player) (m : Nat) (hk : k < 13) (hp : PlayerInv k p)
    (hv : validMoves m = true) (hpos : 0 < p.available.get (moveToIndexD m)) :
    PlayerInv (k + 1) (p.play m) := by
  obtain ⟨hc, hn, ht, played, hlen, hmoves, hvalid, cw, cv, ca, cl, cd⟩ := hp
  obtain ⟨av, mv, mc⟩ := p
  obtain ⟨w, v, a, l, d⟩ := av
  obtain ⟨h1, h2, h3, h4, h5⟩ := hn
  simp only [Inventory.total] at h1 h2 h3 h4 h5 ht cw cv ca cl cd hc hmoves hpos
  subst hc
  have hset : mv.set mc m = (played ++ [m]) ++ List.replicate (13 - (mc + 1)) 0 := by
    rw [hmoves, List.set_append_right _ _ (by omega)]
    have : 13 - mc = (13 - (mc + 1)) + 1 := by omega
    rw [this, List.replicate_succ, hlen, Nat.sub_self, List.set_cons_zero, List.append_assoc]
    rfl
  have hvalid2 : ∀ x ∈ played ++ [m], validMoves x = true := by
    intro x hx
    rcases List.mem_append.1 hx with hx | hx
    · exact hvalid x hx
    · simp only [List.mem_singleton] at hx
      rw [hx]
      exact hv
  rw [validMoves_iff] at hv
  rcases hv with rfl | rfl | rfl | rfl | rfl
  all_goals
    simp only [moveToIndexD_W, moveToIndexD_V, moveToIndexD_A, moveToIndexD_L, moveToIndexD_D,
      Inventory.get] at hpos
    refine ⟨rfl, ?_, ?_, played ++ [_], by simp [hlen], hset, hvalid2, ?_, ?_, ?_, ?_, ?_⟩
  all_goals
    simp only [Player.play, Inventory.dec, moveToIndexD_W, moveToIndexD_V, moveToIndexD_A,
      moveToIndexD_L, moveToIndexD_D, Inventory.Nonneg, Inventory.total, List.count_append,
      List.count_singleton, cW, cV, cA, cL, cD] at cw cv ca cl cd ⊢
  all_goals first
    | omega
    | (push_cast; omega)
    | (norm_num; omega)

theorem IsCyclic.valid (m : Nat) (h : IsCyclic m) : validMoves m = true := by
  rw [validMoves_iff]
  rcases h with h | h | h | h <;> simp [h]

theorem IsCyclic.ne_zero (m : Nat) (h : IsCyclic m) : m ≠ 0 := by
  rcases h with h | h | h | h <;> rw [h] <;> decide

theorem validMoves_ne_zero (m : Nat) (h : validMoves m = true) : m ≠ 0 := by
  intro h0
  rw [h0, validMoves_zero] at h
  exact Bool.noConfusion h

theorem Player.play_cyclic_d (p : Player) (m : Nat) (h : IsCyclic m) :
    (p.play m).available.d = p.available.d := by
  rcases h with rfl | rfl | rfl | rfl <;>
    simp [Player.play, Inventory.dec, moveToIndexD_W, moveToIndexD_V, moveToIndexD_A,
      moveToIndexD_L]

theorem PlayerInv.cyclic_left (k : Nat) (p : Player) (hp : PlayerInv k p) (hk : k < 12)
    : 0 < p.available.w + p.available.v + p.available.a + p.available.l := by
  obtain ⟨_, _, ht, played, _, _, _, _, _, _, _, cd⟩ := hp
  simp only [Inventory.total] at ht
  omega

theorem PlayerInv.prev_valid (k : Nat) (p : Player) (hp : PlayerInv k p) (hk : 0 < k) :
    validMoves (p.moves.getD (k - 1) 0) = true := by
  obtain ⟨_, _, _, played, hlen, hmoves, hvalid, _⟩ := hp
  rw [hmoves, List.getD_append _ _ _ _ (by omega), List.getD_eq_getElem _ _ (by omega)]
  exact hvalid _ (List.getElem_mem _)

theorem mem_take_succ (e : List Nat) (n x : Nat) (h : x ∈ e.take n) : x ∈ e.take (n + 1) := by
  rw [List.take_succ]
  exact List.mem_append_left _ h

theorem getD_mem_take_succ (e : List Nat) (n : Nat) (h : n < e.length) :
    e.getD n 0 ∈ e.take (n + 1) := by
  rw [List.take_succ, List.getD_eq_getElem _ _ h, List.getElem?_eq_getElem h]
  exact List.mem_append_right _ (List.mem_singleton.2 rfl)

theorem getD_mem (e : List Nat) (n : Nat) (h : n < e.length) : e.getD n 0 ∈ e := by
  rw [List.getD_eq_getElem _ _ h]
  exact List.getElem_mem _

theorem count_two_of_take (e : List Nat) (n x : Nat) (hn : n < e.length)
    (h1 : x ∈ e.take n) (h2 : e.getD n 0 = x) : 2 ≤ e.count x := by
  have hsplit : e = e.take n ++ e.drop n := (List.take_append_drop n e).symm
  have hdrop : e.drop n = e[n] :: e.drop (n + 1) := List.drop_eq_getElem_cons hn
  rw [List.getD_eq_getElem _ _ hn] at h2
  have c1 : 1 ≤ (e.take n).count x := List.count_pos_iff.2 h1
  have c2 : 1 ≤ (e.drop n).count x := by
    rw [hdrop, h2, List.count_cons_self]
    omega
  calc 2 ≤ (e.take n).count x + (e.drop n).count x := by omega
    _ = e.count x := by rw [← List.count_append, List.take_append_drop]

theorem roundMove_wild (e : List Nat) (n prev : Nat) (inv : Inventory)
    (h : depthOfByte (e.getD n 0) = 5) :
    roundMove e n prev inv = chooseAvailableElement cD inv := by
  unfold roundMove
  rw [h, getElementFromCode_five, getElementByDepth_five]
  split_ifs <;> rfl

theorem roundMove_target_cyclic (e : List Nat) (n prev : Nat) (inv : Inventory)
    (h : 1 ≤ depthOfByte (e.getD n 0) ∧ depthOfByte (e.getD n 0) ≤ 4)
    (hprev : n = 0 ∨ validMoves prev = true) :
    ∃ t, IsCyclic t ∧ roundMove e n prev inv = chooseAvailableElement t inv := by
  unfold roundMove
  by_cases h0 : n = 0
  · rw [if_pos h0]
    exact ⟨_, getElementFromCode_cyclic _ h, rfl⟩
  · rw [if_neg h0]
    rcases hprev with hp | hp
    · exact absurd hp h0
    · exact ⟨_, getElementByDepth_cyclic _ _ hp h, rfl⟩

/-- One round of an adaptive player whose code has at most one digit 5: the
chosen move is a real symbol and recording it keeps the invariant. -/
theorem roundMove_step (e : List Nat) (n prev : Nat) (p : Player) (he : IsDepthCode e)
    (h5 : e.count 53 ≤ 1) (hn : n < 12) (hp : AdaptiveInv e n p)
    (hprev : n = 0 ∨ validMoves prev = true) :
    roundMove e n prev p.available ≠ 0 ∧
      AdaptiveInv e (n + 1) (p.play (roundMove e n prev p.available)) := by
  obtain ⟨hlen, hdig⟩ := he
  obtain ⟨hinv, hd⟩ := hp
  have hnl : n < e.length := by omega
  have hc := hdig _ (getD_mem e n hnl)
  have hdepth := depthOfByte_digit _ hc
  by_cases h53 : e.getD n 0 = 53
  · have hd1 : p.available.d = 1 := by
      rcases hd with hd | hd
      · exact hd
      · have := count_two_of_take e n 53 hnl hd h53
        omega
    have hm : roundMove e n prev p.available = cD := by
      rw [roundMove_wild e n prev _ (by rw [hdepth, h53]),
        chooseAvailableElement_wild _ (by omega)]
    rw [hm]
    refine ⟨by decide, Player.play_inv n p cD (by omega) hinv (by decide) ?_, Or.inr ?_⟩
    · rw [moveToIndexD_D]
      show 0 < p.available.d
      omega
    · have := getD_mem_take_succ e n hnl
      rwa [h53] at this
  · obtain ⟨t, ht, hm⟩ := roundMove_target_cyclic e n prev p.available
      (by rw [hdepth]; omega) hprev
    have hch := chooseAvailableElement_cyclic t p.available ht hinv.2.1
      (PlayerInv.cyclic_left n p hinv hn)
    rw [hm]
    refine ⟨IsCyclic.ne_zero _ hch.1,
      Player.play_inv n p _ (by omega) hinv (IsCyclic.valid _ hch.1) hch.2, ?_⟩
    rcases hd with hd | hd
    · left
      rw [Player.play_cyclic_d p _ hch.1]
      exact hd
    · right
      exact mem_take_succ e n 53 hd

theorem initialPlayer_inv (e : List Nat) : AdaptiveInv e 0 initialPlayer := by
  refine ⟨⟨rfl, ?_, ?_, [], rfl, rfl, ?_, ?_, ?_, ?_, ?_, ?_⟩, Or.inl rfl⟩
  · simp [initialPlayer, initialInventory, Inventory.Nonneg]
  · simp [initialPlayer, initialInventory, Inventory.total]
  · intro m hm
    simp at hm
  all_goals simp [initialPlayer, initialInventory]

theorem IsFixedCode.getD_valid (f : List Nat) (hf : IsFixedCode f) (i : Nat) (hi : i < 13) :
    validMoves (f.getD i 0) = true :=
  hf.2 _ (getD_mem f i (by rw [hf.1]; exact hi))

theorem movesLoop_inv (e f : List Nat) (he : IsDepthCode e) (h5 : e.count 53 ≤ 1)
    (hf : IsFixedCode f) (n : Nat) (hn : n ≤ 12) : AdaptiveInv e n (movesLoop e f n) := by
  induction n with
  | zero => exact initialPlayer_inv e
  | succ n ih =>
    have hp := ih (by omega)
    have hprev : n = 0 ∨ validMoves (f.getD (n - 1) 0) = true :=
      Or.inr (IsFixedCode.getD_valid f hf (n - 1) (by omega))
    obtain ⟨hne, hinv⟩ := roundMove_step e n (f.getD (n - 1) 0) (movesLoop e f n) he h5
      (by omega) hp hprev
    simp only [movesLoop, movesRound_eq]
    rw [if_pos hne]
    exact hinv

theorem depthLoop_inv (e1 e2 : List Nat) (he1 : IsDepthCode e1) (h1 : e1.count 53 ≤ 1)
    (he2 : IsDepthCode e2) (h2 : e2.count 53 ≤ 1) (n : Nat) (hn : n ≤ 12) :
    ∃ s, depthLoop e1 e2 n = some s ∧ AdaptiveInv e1 n s.p1 ∧ AdaptiveInv e2 n s.p2 := by
  induction n with
  | zero => exact ⟨_, rfl, initialPlayer_inv e1, initialPlayer_inv e2⟩
  | succ n ih =>
    obtain ⟨s, hs, hp1, hp2⟩ := ih (by omega)
    have hprev1 : n = 0 ∨ validMoves (s.p2.moves.getD (n - 1) 0) = true := by
      rcases Nat.eq_zero_or_pos n with h0 | h0
      · exact Or.inl h0
      · exact Or.inr (PlayerInv.prev_valid n s.p2 hp2.1 h0)
    have hprev2 : n = 0 ∨ validMoves (s.p1.moves.getD (n - 1) 0) = true := by
      rcases Nat.eq_zero_or_pos n with h0 | h0
      · exact Or.inl h0
      · exact Or.inr (PlayerInv.prev_valid n s.p1 hp1.1 h0)
    obtain ⟨hne1, hinv1⟩ := roundMove_step e1 n _ s.p1 he1 h1 (by omega) hp1 hprev1
    obtain ⟨hne2, hinv2⟩ := roundMove_step e2 n _ s.p2 he2 h2 (by omega) hp2 hprev2
    simp only [depthLoop, hs, Option.some_bind, depthRound_eq]
    rw [if_neg (fun h => h.elim hne1 hne2)]
    exact ⟨_, rfl, hinv1, hinv2⟩

theorem getLastElement_inv (p : Player) (hp : PlayerInv 12 p) :
    validMoves (getLastElement p.available) = true ∧
      0 < p.available.get (moveToIndexD (getLastElement p.available)) := by
  obtain ⟨_, hn, ht, _⟩ := hp
  obtain ⟨av, mv, mc⟩ := p
  obtain ⟨w, v, a, l, d⟩ := av
  obtain ⟨h1, h2, h3, h4, h5⟩ := hn
  simp only [Inventory.total] at h1 h2 h3 h4 h5 ht
  simp only [getLastElement, lastLoop, moveToIndexD_W, moveToIndexD_V, moveToIndexD_A,
    moveToIndexD_L, moveToIndexD_D, Inventory.get]
  split_ifs
  · exact ⟨by decide, by simpa [moveToIndexD_W, Inventory.get] using ‹w > 0›⟩
  · exact ⟨by decide, by simpa [moveToIndexD_V, Inventory.get] using ‹v > 0›⟩
  · exact ⟨by decide, by simpa [moveToIndexD_A, Inventory.get] using ‹a > 0›⟩
  · exact ⟨by decide, by simpa [moveToIndexD_L, Inventory.get] using ‹l > 0›⟩
  · exact ⟨by decide, by simpa [moveToIndexD_D, Inventory.get] using ‹d > 0›⟩
  · exfalso
    push_cast at ht
    omega

theorem PlayerInv.full (p : Player) (hp : PlayerInv 13 p) : FullInventoryUsed p.moves := by
  obtain ⟨_, hn, ht, played, hlen, hmoves, hvalid, cw, cv, ca, cl, cd⟩ := hp
  obtain ⟨h1, h2, h3, h4, h5⟩ := hn
  simp only [Inventory.total] at ht
  have hm : p.moves = played := by simp [hmoves]
  rw [hm]
  refine ⟨hlen, hvalid, ?_, ?_, ?_, ?_, ?_⟩ <;> push_cast at ht <;> omega

theorem movesFinish_moves (p : Player) (hp : PlayerInv 12 p) :
    (movesFinish p).moves = (p.play (getLastElement p.available)).moves := by
  have h := validMoves_ne_zero _ (getLastElement_inv p hp).1
  simp only [movesFinish]
  rw [if_pos h]
  rfl

theorem fixedLoop_some (e1 e2 : List Nat) (n : Nat)
    (h : ∀ i, i < n → validMoves (e1.getD i 0) = true ∧ validMoves (e2.getD i 0) = true) :
    ∃ s, fixedLoop e1 e2 n = some s := by
  induction n with
  | zero => exact ⟨_, rfl⟩
  | succ n ih =>
    obtain ⟨s, hs⟩ := ih (fun i hi => h i (by omega))
    obtain ⟨v1, v2⟩ := h n (by omega)
    simp only [fixedLoop, hs, Option.some_bind, fixedRound]
    generalize e1.getD n 0 = a at v1
    generalize e2.getD n 0 = b at v2
    simp [v1, v2]

theorem simulateFixedGame_valid (e1 e2 : List Nat) (h1 : IsFixedCode e1) (h2 : IsFixedCode e2) :
    ScoreOK 13 (simulateFixedGame e1 e2) := by
  obtain ⟨s, hs⟩ := fixedLoop_some e1 e2 13
    (fun i hi => ⟨IsFixedCode.getD_valid e1 h1 i hi, IsFixedCode.getD_valid e2 h2 i hi⟩)
  unfold simulateFixedGame
  rw [if_neg (by rw [h1.1, h2.1]; simp), hs]
  exact fixedLoop_ok e1 e2 13 s hs

/-! ## Complete move sequences of adaptive engines -/

theorem simulateDepthGameToMoves_full (e f : List Nat) (he : IsDepthCode e)
    (h5 : e.count 53 ≤ 1) (hf : IsFixedCode f) :
    FullInventoryUsed (simulateDepthGameToMoves e f) := by
  have hp := (movesLoop_inv e f he h5 hf 12 (by omega)).1
  have hl := getLastElement_inv _ hp
  unfold simulateDepthGameToMoves
  rw [if_neg (by rw [he.1, hf.1]; simp), movesFinish_moves _ hp]
  exact PlayerInv.full _ (Player.play_inv 12 _ _ (by omega) hp hl.1 hl.2)

theorem depthFinal_full (e1 e2 : List Nat) (he1 : IsDepthCode e1) (h1 : e1.count 53 ≤ 1)
    (he2 : IsDepthCode e2) (h2 : e2.count 53 ≤ 1) :
    ∃ s, depthFinal e1 e2 = some s ∧ FullInventoryUsed s.p1.moves ∧
      FullInventoryUsed s.p2.moves := by
  obtain ⟨s, hs, hp1, hp2⟩ := depthLoop_inv e1 e2 he1 h1 he2 h2 12 (by omega)
  have hl1 := getLastElement_inv _ hp1.1
  have hl2 := getLastElement_inv _ hp2.1
  refine ⟨depthFinish s, by simp [depthFinal, hs], ?_, ?_⟩
  · simp only [depthFinish]
    rw [if_pos (validMoves_ne_zero _ hl1.1)]
    exact PlayerInv.full _ (Player.play_inv 12 _ _ (by omega) hp1.1 hl1.1 hl1.2)
  · simp only [depthFinish]
    rw [if_pos (validMoves_ne_zero _ hl2.1)]
    exact PlayerInv.full _ (Player.play_inv 12 _ _ (by omega) hp2.1 hl2.1 hl2.2)

theorem FullInventoryUsed.fixed (m : List Nat) (h : FullInventoryUsed m) : IsFixedCode m :=
  ⟨h.1, h.2.1⟩

theorem FullInventoryUsed.getD_ne_zero (m : List Nat) (h : FullInventoryUsed m) (i : Nat)
    (hi : i < 13) : m.getD i 0 ≠ 0 :=
  validMoves_ne_zero _ (IsFixedCode.getD_valid m (FullInventoryUsed.fixed m h) i hi)

theorem simulateGame_mixed_valid (e f : List Nat) (he : IsDepthCode e) (h5 : e.count 53 ≤ 1)
    (hf : IsFixedCode f) :
    ScoreOK 13 (simulateGame e f) ∧ ScoreOK 13 (simulateGame f e) := by
  have hfull := simulateDepthGameToMoves_full e f he h5 hf
  have h12 := FullInventoryUsed.getD_ne_zero _ hfull 12 (by omega)
  have hm := FullInventoryUsed.fixed _ hfull
  rw [simulateGame_mixed e f he.1 hf.1, simulateGame_mixed_rev e f he.1 hf.1, if_neg h12,
    if_neg h12]
  exact ⟨simulateFixedGame_valid _ f hm hf, simulateFixedGame_valid f _ hf hm⟩

theorem simulateGame_depth_valid (e1 e2 : List Nat) (he1 : IsDepthCode e1)
    (h1 : e1.count 53 ≤ 1) (he2 : IsDepthCode e2) (h2 : e2.count 53 ≤ 1) :
    ScoreOK 13 (simulateGame e1 e2) := by
  obtain ⟨s, hs, _, _⟩ := depthFinal_full e1 e2 he1 h1 he2 h2
  rcases simulateGame_range_aux e1 e2 with h | h
  · exfalso
    rw [simulateGame_depth e1 e2 he1.1 he2.1] at h
    unfold simulateDepthGame at h
    rw [if_neg (by rw [he1.1, he2.1]; simp), hs] at h
    simp only [depthFinal] at hs
    cases h0 : depthLoop e1 e2 12 with
    | none => simp [h0] at hs
    | some s0 =>
      simp only [h0, Option.map_some', Option.some.injEq] at hs
      have hok := depthFinish_ok 12 s0 (depthLoop_ok e1 e2 12 s0 h0)
      rw [hs] at hok
      exact (ScoreOK_not_sentinel _ _ hok).1 h
  · exact h

theorem elementsDepth_some (e d x : Nat) (h : elementsDepth e d = some x) : IsCyclic x := by
  unfold elementsDepth at h
  unfold IsCyclic
  split_ifs at h <;> simp only [Option.some.injEq] at h <;> subst h <;> simp

theorem getElementFromCode_cases (d : Nat) :
    getElementFromCode d = 0 ∨ validMoves (getElementFromCode d) = true := by
  unfold getElementFromCode
  split_ifs with h
  · exact Or.inl rfl
  · right
    have h1 : 1 ≤ d := by omega
    have h2 : d ≤ 5 := by omega
    interval_cases d <;> decide

theorem getElementByDepth_eq (prev d : Nat) :
    getElementByDepth prev d =
      if d = 5 then cD else if prev = 0 then 0
      else (elementsDepth (if prev = cD then cL else prev) d).getD 0 := by
  unfold getElementByDepth
  by_cases h5 : d = 5
  · simp only [h5, if_true]
  by_cases h0 : prev = 0
  · simp only [h5, h0, if_true, if_false]
  simp only [h5, h0, if_false]
  cases elementsDepth (if prev = cD then cL else prev) d <;> rfl

theorem getElementByDepth_cases (prev d : Nat) :
    getElementByDepth prev d = 0 ∨ validMoves (getElementByDepth prev d) = true := by
  rw [getElementByDepth_eq]
  by_cases h5 : d = 5
  · rw [if_pos h5]
    exact Or.inr (by decide)
  rw [if_neg h5]
  by_cases h0 : prev = 0
  · rw [if_pos h0]
    exact Or.inl rfl
  rw [if_neg h0]
  generalize (if prev = cD then cL else prev) = q
  cases h : elementsDepth q d with
  | none => exact Or.inl rfl
  | some x => exact Or.inr (IsCyclic.valid x (elementsDepth_some _ _ _ h))

/-- Whatever the inventory, a wanted symbol (or the zero byte) is answered by
the zero byte or by a symbol that is in stock. -/
theorem chooseAvailableElement_sound (t : Nat) (inv : Inventory)
    (ht : t = 0 ∨ validMoves t = true) :
    chooseAvailableElement t inv = 0 ∨
      (validMoves (chooseAvailableElement t inv) = true ∧
        0 < inv.get (moveToIndexD (chooseAvailableElement t inv))) := by
  obtain ⟨w, v, a, l, d⟩ := inv
  rw [validMoves_iff] at ht
  rcases ht with rfl | rfl | rfl | rfl | rfl | rfl <;>
    simp only [chooseAvailableElement_eq, chooseLoop_five, elementsDepthD_W, elementsDepthD_V,
      elementsDepthD_A, elementsDepthD_L, elementsDepthD_D, elementsDepthD_zero, moveToIndexD_W,
      moveToIndexD_V, moveToIndexD_A, moveToIndexD_L, moveToIndexD_D, moveToIndexD_zero,
      Inventory.get] <;>
    split_ifs <;>
    first
    | exact Or.inl rfl
    | exact Or.inr ⟨by decide, by simpa [moveToIndexD_W, Inventory.get] using ‹w > 0›⟩
    | exact Or.inr ⟨by decide, by simpa [moveToIndexD_V, Inventory.get] using ‹v > 0›⟩
    | exact Or.inr ⟨by decide, by simpa [moveToIndexD_A, Inventory.get] using ‹a > 0›⟩
    | exact Or.inr ⟨by decide, by simpa [moveToIndexD_L, Inventory.get] using ‹l > 0›⟩
    | exact Or.inr ⟨by decide, by simpa [moveToIndexD_D, Inventory.get] using ‹d > 0›⟩

theorem roundMove_sound (e : List Nat) (n prev : Nat) (inv : Inventory) :
    roundMove e n prev inv = 0 ∨
      (validMoves (roundMove e n prev inv) = true ∧
        0 < inv.get (moveToIndexD (roundMove e n prev inv))) := by
  unfold roundMove
  split_ifs
  · exact chooseAvailableElement_sound _ inv (getElementFromCode_cases _)
  · exact chooseAvailableElement_sound _ inv (getElementByDepth_cases _ _)

/-- The wildcard is not handed out twice. -/
theorem chooseAvailableElement_wild_spent (inv : Inventory) (h : inv.d ≤ 0) :
    chooseAvailableElement cD inv = 0 := by
  obtain ⟨w, v, a, l, d⟩ := inv
  simp only at h
  simp only [chooseAvailableElement_eq, chooseLoop_five, elementsDepthD_D, elementsDepthD_zero,
    moveToIndexD_D, moveToIndexD_zero, Inventory.get]
  split_ifs <;> first | rfl | (exfalso; omega)

theorem depthLoop_playerInv (e1 e2 : List Nat) (n : Nat) (hn : n ≤ 12) (s : DepthState)
    (h : depthLoop e1 e2 n = some s) : PlayerInv n s.p1 ∧ PlayerInv n s.p2 := by
  induction n generalizing s with
  | zero =>
    simp only [depthLoop, Option.some.injEq] at h
    subst h
    exact ⟨(initialPlayer_inv e1).1, (initialPlayer_inv e2).1⟩
  | succ n ih =>
    simp only [depthLoop] at h
    cases h0 : depthLoop e1 e2 n with
    | none => simp [h0] at h
    | some s0 =>
      obtain ⟨hp1, hp2⟩ := ih (by omega) s0 h0
      simp only [h0, Option.some_bind, depthRound_eq] at h
      split_ifs at h with hz
      simp only [Option.some.injEq] at h
      subst h
      have hz1 : roundMove e1 n (s0.p2.moves.getD (n - 1) 0) s0.p1.available ≠ 0 :=
        fun g => hz (Or.inl g)
      have hz2 : roundMove e2 n (s0.p1.moves.getD (n - 1) 0) s0.p2.available ≠ 0 :=
        fun g => hz (Or.inr g)
      rcases roundMove_sound e1 n (s0.p2.moves.getD (n - 1) 0) s0.p1.available with g1 | g1
      · exact absurd g1 hz1
      rcases roundMove_sound e2 n (s0.p1.moves.getD (n - 1) 0) s0.p2.available with g2 | g2
      · exact absurd g2 hz2
      exact ⟨Player.play_inv n _ _ (by omega) hp1 g1.1 g1.2,
        Player.play_inv n _ _ (by omega) hp2 g2.1 g2.2⟩

theorem movesLoop_playerInv (e f : List Nat) (n : Nat) (hn : n ≤ 12) :
    ∃ k, k ≤ n ∧ PlayerInv k (movesLoop e f n) := by
  induction n with
  | zero => exact ⟨0, le_refl 0, (initialPlayer_inv e).1⟩
  | succ n ih =>
    obtain ⟨k, hk, hp⟩ := ih (by omega)
    simp only [movesLoop, movesRound_eq]
    split_ifs with hz
    · rcases roundMove_sound e n (f.getD (n - 1) 0) (movesLoop e f n).available with g | g
      · exact absurd g hz
      · exact ⟨k + 1, by omega, Player.play_inv k _ _ (by omega) hp g.1 g.2⟩
    · exact ⟨k, by omega, hp⟩

theorem getLastElement_pos (inv : Inventory) (hn : inv.Nonneg) (ht : 0 < inv.total) :
    validMoves (getLastElement inv) = true ∧
      0 < inv.get (moveToIndexD (getLastElement inv)) := by
  obtain ⟨w, v, a, l, d⟩ := inv
  obtain ⟨h1, h2, h3, h4, h5⟩ := hn
  simp only [Inventory.total] at h1 h2 h3 h4 h5 ht
  simp only [getLastElement, lastLoop, moveToIndexD_W, moveToIndexD_V, moveToIndexD_A,
    moveToIndexD_L, moveToIndexD_D, Inventory.get]
  split_ifs
  · exact ⟨by decide, by simpa [moveToIndexD_W, Inventory.get] using ‹w > 0›⟩
  · exact ⟨by decide, by simpa [moveToIndexD_V, Inventory.get] using ‹v > 0›⟩
  · exact ⟨by decide, by simpa [moveToIndexD_A, Inventory.get] using ‹a > 0›⟩
  · exact ⟨by decide, by simpa [moveToIndexD_L, Inventory.get] using ‹l > 0›⟩
  · exact ⟨by decide, by simpa [moveToIndexD_D, Inventory.get] using ‹d > 0›⟩
  · exfalso
    omega

theorem PlayerInv.last_pos (k : Nat) (p : Player) (hp : PlayerInv k p) (hk : k ≤ 12) :
    validMoves (getLastElement p.available) = true ∧
      0 < p.available.get (moveToIndexD (getLastElement p.available)) := by
  apply getLastElement_pos _ hp.2.1
  rw [hp.2.2.1]
  omega

theorem PlayerInv.le (k : Nat) (p : Player) (hp : PlayerInv k p) : k ≤ 13 := by
  obtain ⟨_, ⟨h1, h2, h3, h4, h5⟩, ht, _⟩ := hp
  simp only [Inventory.total] at ht
  omega

theorem count_append_zeros (played : List Nat) (n x : Nat) (hx : x ≠ 0) :
    (played ++ List.replicate n 0).count x = played.count x := by
  rw [List.count_append, List.count_replicate]
  have : ¬ ((0 : Nat) == x) = true := by
    simp only [beq_iff_eq]
    exact fun g => hx g.symm
  simp [this]

theorem PlayerInv.accounted (k : Nat) (p : Player) (hp : PlayerInv k p) : p.Accounted := by
  have hk := PlayerInv.le k p hp
  obtain ⟨hc, hn, _, played, _, hmoves, _, cw, cv, ca, cl, cd⟩ := hp
  refine ⟨hn, by omega, ?_, ?_, ?_, ?_, ?_⟩ <;> rw [hmoves, count_append_zeros _ _ _ (by decide)] <;>
    assumption

theorem Player.Accounted.bounds (p : Player) (h : p.Accounted) :
    p.moves.count cW ≤ 3 ∧ p.moves.count cV ≤ 3 ∧ p.moves.count cA ≤ 3 ∧
      p.moves.count cL ≤ 3 ∧ p.moves.count cD ≤ 1 := by
  obtain ⟨⟨h1, h2, h3, h4, h5⟩, _, cw, cv, ca, cl, cd⟩ := h
  refine ⟨?_, ?_, ?_, ?_, ?_⟩ <;> omega

theorem depthFinish_playerInv (e1 e2 : List Nat) (s : DepthState)
    (h : depthLoop e1 e2 12 = some s) :
    PlayerInv 13 (depthFinish s).p1 ∧ PlayerInv 13 (depthFinish s).p2 := by
  obtain ⟨hp1, hp2⟩ := depthLoop_playerInv e1 e2 12 (le_refl 12) s h
  have hl1 := PlayerInv.last_pos 12 _ hp1 (le_refl 12)
  have hl2 := PlayerInv.last_pos 12 _ hp2 (le_refl 12)
  simp only [depthFinish]
  rw [if_pos (validMoves_ne_zero _ hl1.1), if_pos (validMoves_ne_zero _ hl2.1)]
  exact ⟨Player.play_inv 12 _ _ (by omega) hp1 hl1.1 hl1.2,
    Player.play_inv 12 _ _ (by omega) hp2 hl2.1 hl2.2⟩

theorem depthFinal_playerInv (e1 e2 : List Nat) (s : DepthState)
    (h : depthFinal e1 e2 = some s) : PlayerInv 13 s.p1 ∧ PlayerInv 13 s.p2 := by
  simp only [depthFinal] at h
  cases h0 : depthLoop e1 e2 12 with
  | none => simp [h0] at h
  | some s0 =>
    simp only [h0, Option.map_some', Option.some.injEq] at h
    subst h
    exact depthFinish_playerInv e1 e2 s0 h0

theorem movesFinish_eq (p : Player) (h : getLastElement p.available ≠ 0) :
    movesFinish p =
      { p with available := p.available.dec (moveToIndexD (getLastElement p.available))
               moves := p.moves.set p.moveCount (getLastElement p.available) } := by
  simp only [movesFinish]
  rw [if_pos h]

theorem movesFinish_accounted (e f : List Nat) :
    (movesFinish (movesLoop e f 12)).Accounted := by
  obtain ⟨k, hk, hp⟩ := movesLoop_playerInv e f 12 (le_refl 12)
  have hl := PlayerInv.last_pos k _ hp hk
  have hacc := PlayerInv.accounted (k + 1) _
    (Player.play_inv k _ _ (by omega) hp hl.1 hl.2)
  rw [movesFinish_eq _ (validMoves_ne_zero _ hl.1)]
  obtain ⟨hn, _, cw, cv, ca, cl, cd⟩ := hacc
  exact ⟨hn, by rw [hp.1]; omega, cw, cv, ca, cl, cd⟩

theorem simulateDepthGameToMoves_eq (e f : List Nat) (he : e.length = 12)
    (hf : f.length = 13) :
    simulateDepthGameToMoves e f = (movesFinish (movesLoop e f 12)).moves := by
  unfold simulateDepthGameToMoves
  rw [if_neg (by omega)]

theorem simulateDepthGame_eq (e1 e2 : List Nat) (h1 : e1.length = 12) (h2 : e2.length = 12) :
    simulateDepthGame e1 e2 =
      match depthFinal e1 e2 with
      | none => (-1, -1)
      | some s => (s.p1Score, s.p2Score) := by
  unfold simulateDepthGame
  simp only [h1, h2, ne_eq, not_true_eq_false, or_self, if_false]

/-! ## The second request for the wildcard -/

theorem exists_second_occurrence (e : List Nat) (x : Nat) (h : 2 ≤ e.count x) :
    ∃ n, n < e.length ∧ x ∈ e.take n ∧ e.getD n 0 = x := by
  induction e with
  | nil => simp at h
  | cons a l ih =>
    by_cases h2 : 2 ≤ l.count x
    · obtain ⟨n, hn, hmem, hget⟩ := ih h2
      refine ⟨n + 1, by simpa using hn, ?_, ?_⟩
      · rw [List.take_succ_cons]
        exact List.mem_cons_of_mem _ hmem
      · rw [List.getD_cons_succ]
        exact hget
    · rw [List.count_cons] at h
      have ha : a = x := by
        by_contra hne
        have hb : (a == x) = false := by simpa using hne
        rw [hb] at h
        simp only [Bool.false_eq_true, if_false] at h
        omega
      have hl : 0 < l.count x := by
        have hb : (a == x) = true := by simpa using ha
        rw [hb] at h
        simp only [if_true] at h
        omega
      have hmem : x ∈ l := List.count_pos_iff.1 hl
      obtain ⟨i, hi, hxi⟩ := List.getElem_of_mem hmem
      refine ⟨i + 1, by simpa using hi, ?_, ?_⟩
      · rw [List.take_succ_cons, ha]
        exact List.mem_cons_self _ _
      · rw [List.getD_cons_succ, List.getD_eq_getElem _ _ hi]
        exact hxi

theorem depthOfByte_five : depthOfByte 53 = 5 := by decide

theorem mem_take_succ_cases (e : List Nat) (n x : Nat) (h : x ∈ e.take (n + 1)) :
    x ∈ e.take n ∨ e.getD n 0 = x := by
  rw [List.take_succ] at h
  rcases List.mem_append.1 h with h | h
  · exact Or.inl h
  · right
    by_cases hn : n < e.length
    · rw [List.getElem?_eq_getElem hn] at h
      rw [List.getD_eq_getElem _ _ hn]
      exact (List.mem_singleton.1 h).symm
    · rw [List.getElem?_eq_none (by omega)] at h
      simp at h

theorem Player.play_d_le (p : Player) (m : Nat) : (p.play m).available.d ≤ p.available.d := by
  rcases moveToIndex_cases m with ⟨_, h⟩ | ⟨_, h⟩ | ⟨_, h⟩ | ⟨_, h⟩ | ⟨_, h⟩ | ⟨_, h⟩ <;>
    simp [Player.play, Inventory.dec, moveToIndexD, h]

theorem Player.play_wild_d (p : Player) : (p.play cD).available.d = p.available.d - 1 := by
  simp [Player.play, Inventory.dec, moveToIndexD_D]

/-- A round whose digit is 5 either yields no move or plays the wildcard and
leaves none. -/
theorem roundMove_five (e : List Nat) (n prev k : Nat) (p : Player) (hp : PlayerInv k p)
    (h5 : e.getD n 0 = 53) :
    (p.available.d ≤ 0 → roundMove e n prev p.available = 0) ∧
    (roundMove e n prev p.available ≠ 0 →
      (p.play (roundMove e n prev p.available)).available.d ≤ 0) := by
  have hm := roundMove_wild e n prev p.available (by rw [h5]; exact depthOfByte_five)
  rw [hm]
  constructor
  · exact chooseAvailableElement_wild_spent _
  · intro hne
    have hd : 0 < p.available.d := by
      by_contra hle
      exact hne (chooseAvailableElement_wild_spent _ (by omega))
    rw [chooseAvailableElement_wild _ hd, Player.play_wild_d]
    obtain ⟨_, _, _, played, _, _, _, _, _, _, _, cd⟩ := hp
    omega

theorem depthLoop_none_mono (e1 e2 : List Nat) (n m : Nat) (hnm : n ≤ m)
    (h : depthLoop e1 e2 n = none) : depthLoop e1 e2 m = none := by
  induction m with
  | zero =>
    have : n = 0 := by omega
    subst this
    exact h
  | succ m ih =>
    by_cases hn : n = m + 1
    · subst hn
      exact h
    · have := ih (by omega)
      simp [depthLoop, this]

/-- Once a digit 5 has been seen, the first player of `simulateDepthGame` has
no wildcard left. -/
theorem depthLoop_wild_spent (e1 e2 : List Nat) (n : Nat) (hn : n ≤ 12) (s : DepthState)
    (h : depthLoop e1 e2 n = some s) (h5 : 53 ∈ e1.take n) : s.p1.available.d ≤ 0 := by
  induction n generalizing s with
  | zero => simp at h5
  | succ n ih =>
    simp only [depthLoop] at h
    cases h0 : depthLoop e1 e2 n with
    | none => simp [h0] at h
    | some s0 =>
      have hp := (depthLoop_playerInv e1 e2 n (by omega) s0 h0).1
      simp only [h0, Option.some_bind, depthRound_eq] at h
      split_ifs at h with hz
      simp only [Option.some.injEq] at h
      subst h
      have hz1 : roundMove e1 n (s0.p2.moves.getD (n - 1) 0) s0.p1.available ≠ 0 :=
        fun g => hz (Or.inl g)
      rcases mem_take_succ_cases e1 n 53 h5 with g | g
      · exact le_trans (Player.play_d_le _ _) (ih (by omega) s0 h0 g)
      · exact (roundMove_five e1 n _ n s0.p1 hp g).2 hz1

theorem depthLoop_double_five (e1 e2 : List Nat) (he : e1.length = 12)
    (h : 2 ≤ e1.count 53) : depthLoop e1 e2 12 = none := by
  obtain ⟨n, hn, hmem, hget⟩ := exists_second_occurrence e1 53 h
  apply depthLoop_none_mono e1 e2 (n + 1) 12 (by omega)
  simp only [depthLoop]
  cases h0 : depthLoop e1 e2 n with
  | none => rfl
  | some s0 =>
    have hp := (depthLoop_playerInv e1 e2 n (by omega) s0 h0).1
    have hd := depthLoop_wild_spent e1 e2 n (by omega) s0 h0 hmem
    have hz := (roundMove_five e1 n (s0.p2.moves.getD (n - 1) 0) n s0.p1 hp hget).1 hd
    simp only [Option.some_bind, depthRound_eq]
    rw [if_pos (Or.inl hz)]

/-- Once a digit 5 has been seen, the player of `simulateDepthGameToMoves` has
no wildcard left. -/
theorem movesLoop_wild_spent (e f : List Nat) (n : Nat) (hn : n ≤ 12)
    (h5 : 53 ∈ e.take n) : (movesLoop e f n).available.d ≤ 0 := by
  induction n with
  | zero => simp at h5
  | succ n ih =>
    obtain ⟨k, _, hp⟩ := movesLoop_playerInv e f n (by omega)
    simp only [movesLoop, movesRound_eq]
    rcases mem_take_succ_cases e n 53 h5 with g | g
    · have hd := ih (by omega) g
      split_ifs
      · exact le_trans (Player.play_d_le _ _) hd
      · exact hd
    · have hr := roundMove_five e n (f.getD (n - 1) 0) k _ hp g
      split_ifs with hz
      · exact hr.2 hz
      · by_contra hd
        have hpos : 0 < (movesLoop e f n).available.d := by omega
        apply hz
        rw [roundMove_wild e n _ _ (by rw [g]; exact depthOfByte_five),
          chooseAvailableElement_wild _ hpos]
        decide

/-- After a skipped round fewer moves than rounds are recorded. -/
theorem movesLoop_behind (e f : List Nat) (n0 : Nat)
    (hskip : roundMove e n0 (f.getD (n0 - 1) 0) (movesLoop e f n0).available = 0)
    (n : Nat) (h1 : n0 < n) (h2 : n ≤ 12) :
    ∃ k, k < n ∧ PlayerInv k (movesLoop e f n) := by
  induction n with
  | zero => omega
  | succ n ih =>
    by_cases hn : n = n0
    · subst hn
      obtain ⟨k, hk, hp⟩ := movesLoop_playerInv e f n (by omega)
      simp only [movesLoop, movesRound_eq]
      rw [if_neg (by simpa using hskip)]
      exact ⟨k, by omega, hp⟩
    · obtain ⟨k, hk, hp⟩ := ih (by omega) (by omega)
      simp only [movesLoop, movesRound_eq]
      split_ifs with hz
      · rcases roundMove_sound e n (f.getD (n - 1) 0) (movesLoop e f n).available with g | g
        · exact absurd g hz
        · exact ⟨k + 1, by omega, Player.play_inv k _ _ (by omega) hp g.1 g.2⟩
      · exact ⟨k, by omega, hp⟩

theorem PlayerInv.getD_zero (k : Nat) (p : Player) (hp : PlayerInv k p) (i : Nat)
    (hi : k ≤ i) : p.moves.getD i 0 = 0 := by
  obtain ⟨_, _, _, played, hlen, hmoves, _⟩ := hp
  rw [hmoves, List.getD_append_right _ _ _ _ (by omega)]
  by_cases h : i - played.length < (List.replicate (13 - k) 0).length
  · rw [List.getD_eq_getElem _ _ h]
    simp
  · rw [List.getD_eq_default _ _ (by omega)]

theorem movesFinish_last_zero (e f : List Nat) (k : Nat) (hk : k < 12)
    (hp : PlayerInv k (movesLoop e f 12)) :
    (movesFinish (movesLoop e f 12)).moves.getD 12 0 = 0 := by
  have hl := PlayerInv.last_pos k _ hp (by omega)
  have hq := Player.play_inv k _ _ (by omega) hp hl.1 hl.2
  rw [movesFinish_eq _ (validMoves_ne_zero _ hl.1)]
  exact PlayerInv.getD_zero (k + 1) _ hq 12 (by omega)

theorem simulateDepthGameToMoves_double_five (e f : List Nat) (he : e.length = 12)
    (hf : f.length = 13) (h : 2 ≤ e.count 53) :
    (simulateDepthGameToMoves e f).getD 12 0 = 0 := by
  obtain ⟨n, hn, hmem, hget⟩ := exists_second_occurrence e 53 h
  obtain ⟨k0, _, hp0⟩ := movesLoop_playerInv e f n (by omega)
  have hd := movesLoop_wild_spent e f n (by omega) hmem
  have hskip := (roundMove_five e n (f.getD (n - 1) 0) k0 _ hp0 hget).1 hd
  obtain ⟨k, hk, hp⟩ := movesLoop_behind e f n hskip 12 (by omega) (le_refl 12)
  rw [simulateDepthGameToMoves_eq e f he hf]
  exact movesFinish_last_zero e f k hk hp

theorem simulateGame_double_five (e1 e2 : List Nat) (he1 : IsDepthCode e1)
    (h : 2 ≤ e1.count 53) (h2 : WellFormed e2) :
    simulateGame e1 e2 = (-1, -1) ∧ simulateGame e2 e1 = (-1, -1) := by
  have hleft : e2.length = 12 → simulateGame e1 e2 = (-1, -1) := by
    intro hl
    rw [simulateGame_depth e1 e2 he1.1 hl, simulateDepthGame_eq e1 e2 he1.1 hl]
    simp [depthFinal, depthLoop_double_five e1 e2 he1.1 h]
  rcases h2 with h2 | h2
  · refine ⟨hleft h2.1, ?_⟩
    rw [simulateGame_swap_same e1 e2 (Or.inl ⟨he1.1, h2.1⟩), hleft h2.1]
    rfl
  · have h0 := simulateDepthGameToMoves_double_five e1 e2 he1.1 h2.1 h
    rw [simulateGame_mixed e1 e2 he1.1 h2.1, simulateGame_mixed_rev e1 e2 he1.1 h2.1,
      if_pos h0, if_pos h0]
    exact ⟨rfl, rfl⟩

theorem simulateGame_wellformed_valid (e1 e2 : List Nat) (h1 : WellFormed e1)
    (h2 : WellFormed e2) (c1 : IsDepthCode e1 → e1.count 53 ≤ 1)
    (c2 : IsDepthCode e2 → e2.count 53 ≤ 1) : ScoreOK 13 (simulateGame e1 e2) := by
  rcases h1 with h1 | h1 <;> rcases h2 with h2 | h2
  · exact simulateGame_depth_valid e1 e2 h1 (c1 h1) h2 (c2 h2)
  · exact (simulateGame_mixed_valid e1 e2 h1 (c1 h1) h2).1
  · exact (simulateGame_mixed_valid e2 e1 h2 (c2 h2) h1).2
  · rw [simulateGame_fixed e1 e2 h1.1 h2.1]
    exact simulateFixedGame_valid e1 e2 h1 h2

/-! ## Adaptive-versus-adaptive games replayed in mixed and fixed mode -/

theorem depthLoop_succ_some (e1 e2 : List Nat) (n : Nat) (s : DepthState)
    (h : depthLoop e1 e2 (n + 1) = some s) :
    ∃ s0, depthLoop e1 e2 n = some s0 ∧
      roundMove e1 n (s0.p2.moves.getD (n - 1) 0) s0.p1.available ≠ 0 ∧
      roundMove e2 n (s0.p1.moves.getD (n - 1) 0) s0.p2.available ≠ 0 ∧
      s.p1 = s0.p1.play (roundMove e1 n (s0.p2.moves.getD (n - 1) 0) s0.p1.available) ∧
      s.p2 = s0.p2.play (roundMove e2 n (s0.p1.moves.getD (n - 1) 0) s0.p2.available) ∧
      (s.p1Score, s.p2Score) = addScore (determineWinner
        (roundMove e1 n (s0.p2.moves.getD (n - 1) 0) s0.p1.available)
        (roundMove e2 n (s0.p1.moves.getD (n - 1) 0) s0.p2.available))
        (s0.p1Score, s0.p2Score) := by
  simp only [depthLoop] at h
  cases h0 : depthLoop e1 e2 n with
  | none => simp [h0] at h
  | some s0 =>
    simp only [h0, Option.some_bind, depthRound_eq] at h
    split_ifs at h with hz
    simp only [Option.some.injEq] at h
    subst h
    exact ⟨s0, rfl, fun g => hz (Or.inl g), fun g => hz (Or.inr g), rfl, rfl, rfl⟩

theorem depthLoop_prefix (e1 e2 : List Nat) (n m : Nat) (hnm : n ≤ m) (s : DepthState)
    (h : depthLoop e1 e2 m = some s) : ∃ s0, depthLoop e1 e2 n = some s0 := by
  cases h0 : depthLoop e1 e2 n with
  | none =>
    rw [depthLoop_none_mono e1 e2 n m hnm h0] at h
    exact Option.noConfusion h
  | some s0 => exact ⟨s0, rfl⟩

theorem Player.play_getD_ne (p : Player) (x i : Nat) (h : i ≠ p.moveCount) :
    (p.play x).moves.getD i 0 = p.moves.getD i 0 := by
  simp only [Player.play, List.getD_eq_getElem?_getD]
  rw [List.getElem?_set_ne (fun g => h g.symm)]

theorem PlayerInv.moves_length (k : Nat) (p : Player) (hp : PlayerInv k p) :
    p.moves.length = 13 := by
  have hk := PlayerInv.le k p hp
  obtain ⟨_, _, _, played, hlen, hmoves, _⟩ := hp
  rw [hmoves, List.length_append, List.length_replicate, hlen]
  omega

theorem Player.play_getD_eq (k : Nat) (p : Player) (hp : PlayerInv k p) (hk : k < 13)
    (x : Nat) : (p.play x).moves.getD k 0 = x := by
  have hl := PlayerInv.moves_length k p hp
  simp only [Player.play, List.getD_eq_getElem?_getD, hp.1]
  rw [List.getElem?_set_self (by omega)]
  rfl

/-- A move, once recorded, stays in the array. -/
theorem depthLoop_stable (e1 e2 : List Nat) (m : Nat) (hm : m ≤ 12) (n : Nat) (hn : n ≤ m)
    (sn sm : DepthState) (h1 : depthLoop e1 e2 n = some sn) (h2 : depthLoop e1 e2 m = some sm)
    (i : Nat) (hi : i < n) :
    sm.p1.moves.getD i 0 = sn.p1.moves.getD i 0 ∧
      sm.p2.moves.getD i 0 = sn.p2.moves.getD i 0 := by
  induction m generalizing sm with
  | zero => omega
  | succ m ih =>
    by_cases hnm : n = m + 1
    · subst hnm
      rw [h1] at h2
      simp only [Option.some.injEq] at h2
      subst h2
      exact ⟨rfl, rfl⟩
    · obtain ⟨s0, hs0, _, _, hp1, hp2, _⟩ := depthLoop_succ_some e1 e2 m sm h2
      obtain ⟨g1, g2⟩ := ih (by omega) (by omega) s0 hs0
      obtain ⟨hq1, hq2⟩ := depthLoop_playerInv e1 e2 m (by omega) s0 hs0
      rw [hp1, hp2, Player.play_getD_ne _ _ _ (by rw [hq1.1]; omega),
        Player.play_getD_ne _ _ _ (by rw [hq2.1]; omega)]
      exact ⟨g1, g2⟩

theorem depthFinish_eq (e1 e2 : List Nat) (s : DepthState)
    (h : depthLoop e1 e2 12 = some s) :
    (depthFinish s).p1 = s.p1.play (getLastElement s.p1.available) ∧
    (depthFinish s).p2 = s.p2.play (getLastElement s.p2.available) ∧
    validMoves (getLastElement s.p1.available) = true ∧
    validMoves (getLastElement s.p2.available) = true ∧
    ((depthFinish s).p1Score, (depthFinish s).p2Score) =
      addScore (determineWinner (getLastElement s.p1.available)
        (getLastElement s.p2.available)) (s.p1Score, s.p2Score) := by
  obtain ⟨hp1, hp2⟩ := depthLoop_playerInv e1 e2 12 (le_refl 12) s h
  have hl1 := PlayerInv.last_pos 12 _ hp1 (le_refl 12)
  have hl2 := PlayerInv.last_pos 12 _ hp2 (le_refl 12)
  simp only [depthFinish]
  rw [if_pos (validMoves_ne_zero _ hl1.1), if_pos (validMoves_ne_zero _ hl2.1)]
  exact ⟨rfl, rfl, hl1.1, hl2.1, trivial⟩

/-- The final arrays agree with every intermediate state on the moves already
recorded there. -/
theorem depthFinish_stable (e1 e2 : List Nat) (s : DepthState)
    (h : depthLoop e1 e2 12 = some s) (n : Nat) (hn : n ≤ 12) (sn : DepthState)
    (h1 : depthLoop e1 e2 n = some sn) (i : Nat) (hi : i < n) :
    (depthFinish s).p1.moves.getD i 0 = sn.p1.moves.getD i 0 ∧
      (depthFinish s).p2.moves.getD i 0 = sn.p2.moves.getD i 0 := by
  obtain ⟨f1, f2, _⟩ := depthFinish_eq e1 e2 s h
  obtain ⟨hq1, hq2⟩ := depthLoop_playerInv e1 e2 12 (le_refl 12) s h
  obtain ⟨g1, g2⟩ := depthLoop_stable e1 e2 12 (le_refl 12) n hn sn s h1 h i hi
  rw [f1, f2, Player.play_getD_ne _ _ _ (by rw [hq1.1]; omega),
    Player.play_getD_ne _ _ _ (by rw [hq2.1]; omega)]
  exact ⟨g1, g2⟩

theorem roundMove_prev_irrelevant (e : List Nat) (n a b : Nat) (inv : Inventory)
    (h : n = 0 ∨ a = b) : roundMove e n a inv = roundMove e n b inv := by
  unfold roundMove
  rcases h with h | h
  · rw [if_pos h, if_pos h]
  · rw [h]

/-- Against the moves the second player really made, `simulateDepthGameToMoves`
goes through the same player states as the first player of
`simulateDepthGame`. -/
theorem movesLoop_agrees (e1 e2 : List Nat) (s : DepthState)
    (h : depthLoop e1 e2 12 = some s) (n : Nat) (hn : n ≤ 12) (sn : DepthState)
    (h1 : depthLoop e1 e2 n = some sn) :
    movesLoop e1 (depthFinish s).p2.moves n = sn.p1 := by
  induction n generalizing sn with
  | zero =>
    simp only [depthLoop, Option.some.injEq] at h1
    subst h1
    rfl
  | succ n ih =>
    obtain ⟨s0, hs0, hz1, _, hp1, _, _⟩ := depthLoop_succ_some e1 e2 n sn h1
    have hprev : roundMove e1 n ((depthFinish s).p2.moves.getD (n - 1) 0) s0.p1.available =
        roundMove e1 n (s0.p2.moves.getD (n - 1) 0) s0.p1.available := by
      apply roundMove_prev_irrelevant
      rcases Nat.eq_zero_or_pos n with h0 | h0
      · exact Or.inl h0
      · exact Or.inr (depthFinish_stable e1 e2 s h n (by omega) s0 hs0 (n - 1) (by omega)).2
    simp only [movesLoop, movesRound_eq]
    rw [ih (by omega) s0 hs0, hprev, if_pos hz1, hp1]

/-- The fixed game on the two final arrays scores every round as
`simulateDepthGame` did. -/
theorem fixedLoop_agrees (e1 e2 : List Nat) (s : DepthState)
    (h : depthLoop e1 e2 12 = some s) (n : Nat) (hn : n ≤ 12) (sn : DepthState)
    (h1 : depthLoop e1 e2 n = some sn) :
    fixedLoop (depthFinish s).p1.moves (depthFinish s).p2.moves n =
      some (sn.p1Score, sn.p2Score) := by
  induction n generalizing sn with
  | zero =>
    simp only [depthLoop, Option.some.injEq] at h1
    subst h1
    rfl
  | succ n ih =>
    obtain ⟨s0, hs0, hz1, hz2, hp1, hp2, hsc⟩ := depthLoop_succ_some e1 e2 n sn h1
    obtain ⟨hq1, hq2⟩ := depthLoop_playerInv e1 e2 n (by omega) s0 hs0
    obtain ⟨g1, g2⟩ := depthFinish_stable e1 e2 s h (n + 1) hn sn h1 n (by omega)
    rw [hp1, Player.play_getD_eq n _ hq1 (by omega)] at g1
    rw [hp2, Player.play_getD_eq n _ hq2 (by omega)] at g2
    have v1 : validMoves (roundMove e1 n (s0.p2.moves.getD (n - 1) 0) s0.p1.available) = true := by
      rcases roundMove_sound e1 n (s0.p2.moves.getD (n - 1) 0) s0.p1.available with g | g
      · exact absurd g hz1
      · exact g.1
    have v2 : validMoves (roundMove e2 n (s0.p1.moves.getD (n - 1) 0) s0.p2.available) = true := by
      rcases roundMove_sound e2 n (s0.p1.moves.getD (n - 1) 0) s0.p2.available with g | g
      · exact absurd g hz2
      · exact g.1
    simp only [fixedLoop, ih (by omega) s0 hs0, Option.some_bind, fixedRound]
    rw [g1, g2, v1, v2, hsc]
    rfl

theorem depthFinal_some (e1 e2 : List Nat) (s : DepthState) (h : depthFinal e1 e2 = some s) :
    ∃ s0, depthLoop e1 e2 12 = some s0 ∧ s = depthFinish s0 := by
  simp only [depthFinal] at h
  cases h0 : depthLoop e1 e2 12 with
  | none => simp [h0] at h
  | some s0 =>
    simp only [h0, Option.map_some', Option.some.injEq] at h
    exact ⟨s0, rfl, h.symm⟩

theorem simulateDepthGameToMoves_agrees (e1 e2 : List Nat) (h1 : e1.length = 12)
    (s : DepthState) (h : depthLoop e1 e2 12 = some s) :
    simulateDepthGameToMoves e1 (depthFinish s).p2.moves = (depthFinish s).p1.moves := by
  obtain ⟨f1, _, v1, _, _⟩ := depthFinish_eq e1 e2 s h
  have hm2 := PlayerInv.moves_length 13 _ (depthFinish_playerInv e1 e2 s h).2
  rw [simulateDepthGameToMoves_eq e1 _ h1 hm2, movesLoop_agrees e1 e2 s h 12 (le_refl 12) s h,
    movesFinish_eq _ (validMoves_ne_zero _ v1), f1]
  rfl

theorem simulateFixedGame_agrees (e1 e2 : List Nat) (s : DepthState)
    (h : depthLoop e1 e2 12 = some s) :
    simulateFixedGame (depthFinish s).p1.moves (depthFinish s).p2.moves =
      ((depthFinish s).p1Score, (depthFinish s).p2Score) := by
  obtain ⟨f1, f2, v1, v2, hsc⟩ := depthFinish_eq e1 e2 s h
  obtain ⟨hq1, hq2⟩ := depthLoop_playerInv e1 e2 12 (le_refl 12) s h
  obtain ⟨hf1, hf2⟩ := depthFinish_playerInv e1 e2 s h
  have hm1 := PlayerInv.moves_length 13 _ hf1
  have hm2 := PlayerInv.moves_length 13 _ hf2
  have g1 : (depthFinish s).p1.moves.getD 12 0 = getLastElement s.p1.available := by
    rw [f1]
    exact Player.play_getD_eq 12 _ hq1 (by omega) _
  have g2 : (depthFinish s).p2.moves.getD 12 0 = getLastElement s.p2.available := by
    rw [f2]
    exact Player.play_getD_eq 12 _ hq2 (by omega) _
  have h13 : fixedLoop (depthFinish s).p1.moves (depthFinish s).p2.moves 13 =
      (fixedLoop (depthFinish s).p1.moves (depthFinish s).p2.moves 12).bind
        (fun sc => fixedRound (depthFinish s).p1.moves (depthFinish s).p2.moves sc 12) := rfl
  unfold simulateFixedGame
  rw [if_neg (by omega), h13, fixedLoop_agrees e1 e2 s h 12 (le_refl 12) s h, Option.some_bind]
  simp only [fixedRound]
  rw [g1, g2, v1, v2, hsc]
  rfl

/-! ## Slicing lemmas -/

theorem enginesPerThread_pos (n : Nat) (hn : 1 ≤ n) : 1 ≤ enginesPerThread n := by
  unfold enginesPerThread numThreads
  omega

theorem enginesPerThread_cover (n : Nat) : n ≤ numThreads * enginesPerThread n := by
  unfold enginesPerThread numThreads
  omega

theorem threadEnd_eq_min (n i : Nat) :
    threadEnd n i = min (threadStart n i + enginesPerThread n) n := by
  unfold threadEnd
  split_ifs <;> omega

theorem threadStart_succ (n i : Nat) :
    threadStart n (i + 1) = threadStart n i + enginesPerThread n := by
  unfold threadStart
  ring

/-- The slices of the first `m` workers, concatenated, are the first
`m * enginesPerThread` candidates. -/
theorem slices_flatten (xs : List (List Nat)) (m : Nat) :
    ((List.range m).filterMap (fun i =>
      if threadStart xs.length i < threadEnd xs.length i then
        some (goSlice xs (threadStart xs.length i) (threadEnd xs.length i))
      else none)).flatten = xs.take (threadStart xs.length m) := by
  induction m with
  | zero => simp [threadStart]
  | succ m ih =>
    rw [List.range_succ, List.filterMap_append, List.flatten_append, ih, threadStart_succ]
    have hend := threadEnd_eq_min xs.length m
    by_cases h : threadStart xs.length m < threadEnd xs.length m
    · simp only [List.filterMap_cons, List.filterMap_nil, h, if_true, List.flatten_cons,
        List.flatten_nil, List.append_nil, goSlice]
      rw [List.take_add]
      congr 1
      rw [List.take_eq_take, List.length_drop]
      omega
    · simp only [List.filterMap_cons, List.filterMap_nil, h, if_false, List.flatten_nil,
        List.append_nil]
      by_cases hk : enginesPerThread xs.length = 0
      · rw [hk, Nat.add_zero]
      · rw [List.take_of_length_le (by omega), List.take_of_length_le (by omega)]

theorem dispatch_flatten (xs : List (List Nat)) : (dispatch xs).flatten = xs := by
  unfold dispatch
  rw [slices_flatten xs numThreads]
  apply List.take_of_length_le
  unfold threadStart
  exact enginesPerThread_cover xs.length

theorem thread_index_unique (n i j : Nat) (h1 : threadStart n i ≤ j)
    (h2 : j < threadEnd n i) : i = j / enginesPerThread n := by
  have hend := threadEnd_eq_min n i
  unfold threadStart at h1 hend
  symm
  apply Nat.div_eq_of_lt_le
  · exact h1
  · rw [Nat.succ_mul]
    omega

theorem thread_index_exists (n j : Nat) (hj : j < n) :
    j / enginesPerThread n < numThreads ∧
      threadStart n (j / enginesPerThread n) ≤ j ∧ j < threadEnd n (j / enginesPerThread n) := by
  have hk := enginesPerThread_pos n (by omega)
  have hc := enginesPerThread_cover n
  have hend := threadEnd_eq_min n (j / enginesPerThread n)
  have h1 : j / enginesPerThread n * enginesPerThread n ≤ j := Nat.div_mul_le_self _ _
  have h2 : j < (j / enginesPerThread n + 1) * enginesPerThread n := by
    rw [Nat.mul_comm]
    exact Nat.lt_mul_div_succ j (by omega)
  rw [Nat.succ_mul] at h2
  refine ⟨?_, ?_, ?_⟩
  · apply Nat.div_lt_of_lt_mul
    rw [Nat.mul_comm]
    omega
  · exact h1
  · unfold threadStart at hend
    omega

theorem dispatch_mem (xs : List (List Nat)) (b : List (List Nat)) (hb : b ∈ dispatch xs) :
    b ≠ [] ∧ b.length ≤ enginesPerThread xs.length := by
  unfold dispatch at hb
  obtain ⟨i, _, hi⟩ := List.mem_filterMap.1 hb
  have hend := threadEnd_eq_min xs.length i
  split_ifs at hi with h
  simp only [Option.some.injEq] at hi
  subst hi
  have hlen : (goSlice xs (threadStart xs.length i) (threadEnd xs.length i)).length =
      threadEnd xs.length i - threadStart xs.length i := by
    simp only [goSlice, List.length_take, List.length_drop]
    omega
  constructor
  · intro h0
    rw [h0] at hlen
    simp only [List.length_nil] at hlen
    omega
  · omega

/-! ## The batch evaluator -/

theorem evalStep_skip (engine : List Nat) (acc : Tally × Int) (o : List Nat)
    (h : simulateGame engine o = (-1, -1)) : evalStep engine acc o = acc := by
  simp [evalStep, h]

theorem evalStep_valid (engine : List Nat) (acc : Tally × Int) (o : List Nat)
    (h : simulateGame engine o ≠ (-1, -1)) :
    evalStep engine acc o =
      ({ totalScore := acc.1.totalScore + matchScore (simulateGame engine o)
         neverLoses := acc.1.neverLoses &&
           !decide ((simulateGame engine o).1 < (simulateGame engine o).2)
         wins := acc.1.wins +
           (if (simulateGame engine o).1 > (simulateGame engine o).2 then 1 else 0) },
        acc.2 + 1) := by
  have hs : ¬ ((simulateGame engine o).1 = -1 ∨ (simulateGame engine o).2 = -1) :=
    fun g => h ((simulateGame_sentinel_iff engine o).1 g)
  unfold evalStep
  simp only [hs, if_false, matchScore]
  generalize simulateGame engine o = r
  by_cases h1 : r.1 > r.2
  · have h2 : ¬ r.1 < r.2 := by omega
    simp [h1, h2]
  · by_cases h2 : r.1 < r.2
    · simp [h1, h2]
    · simp [h1, h2]

theorem evalFold (engine : List Nat) (offerEngines : List (List Nat)) (acc : Tally × Int) :
    (offerEngines.foldl (evalStep engine) acc).1 =
      { totalScore := acc.1.totalScore + panelScore engine offerEngines
        neverLoses := acc.1.neverLoses && panelNeverLoses engine offerEngines
        wins := acc.1.wins + panelWins engine offerEngines } := by
  induction offerEngines generalizing acc with
  | nil => simp [panelScore, panelWins, panelNeverLoses, validOpponents]
  | cons o os ih =>
    rw [List.foldl_cons, ih]
    by_cases h : simulateGame engine o = (-1, -1)
    · rw [evalStep_skip engine acc o h]
      simp [panelScore, panelWins, panelNeverLoses, validOpponents, h]
    · rw [evalStep_valid engine acc o h]
      by_cases hw : (simulateGame engine o).1 > (simulateGame engine o).2
      · have hl : ¬ (simulateGame engine o).1 < (simulateGame engine o).2 := by omega
        have hle : (simulateGame engine o).2 ≤ (simulateGame engine o).1 := by omega
        simp [panelScore, panelWins, panelNeverLoses, validOpponents, h, hw, hl, hle]
        constructor <;> ring
      · by_cases hl : (simulateGame engine o).1 < (simulateGame engine o).2
        · simp [panelScore, panelWins, panelNeverLoses, validOpponents, h, hw, hl]
          ring
        · have hle : (simulateGame engine o).2 ≤ (simulateGame engine o).1 := by omega
          simp [panelScore, panelWins, panelNeverLoses, validOpponents, h, hw, hl, hle]
          ring

theorem evalEngine_fst (offerEngines : List (List Nat)) (st : List engineResult × Int)
    (engine : List Nat) :
    (evalEngine offerEngines st engine).1 =
      st.1 ++ [{ engine := engine, score := panelScore engine offerEngines,
                 neverLoses := panelNeverLoses engine offerEngines,
                 wins := panelWins engine offerEngines }] := by
  simp [evalEngine, evalFold]

theorem evaluateBatch_fold (batch offerEngines : List (List Nat))
    (st : List engineResult × Int) :
    (batch.foldl (evalEngine offerEngines) st).1 =
      st.1 ++ batch.map (fun e =>
        { engine := e, score := panelScore e offerEngines,
          neverLoses := panelNeverLoses e offerEngines,
          wins := panelWins e offerEngines }) := by
  induction batch generalizing st with
  | nil => simp
  | cons e es ih => rw [List.foldl_cons, ih, evalEngine_fst]; simp

theorem evaluateBatch_eq (batch offerEngines : List (List Nat)) (progress : Int) :
    (evaluateBatch batch offerEngines progress).1 =
      batch.map (fun e =>
        { engine := e, score := panelScore e offerEngines,
          neverLoses := panelNeverLoses e offerEngines,
          wins := panelWins e offerEngines }) := by
  simp [evaluateBatch, evaluateBatch_fold]

/-! ## Scoring weights -/

theorem evalStep_delta (e o : List Nat) (acc : Tally × Int)
    (h : simulateGame e o ≠ (-1, -1)) :
    (evalStep e acc o).1.totalScore - acc.1.totalScore = matchScore (simulateGame e o) := by
  rw [evalStep_valid e acc o h]
  simp

theorem matchScore_bounds (r : Int × Int) (h : ScoreOK 13 r) :
    (r.1 > r.2 → 11 ≤ matchScore r ∧ matchScore r ≤ 23) ∧
    (r.1 = r.2 → 0 ≤ matchScore r ∧ matchScore r ≤ 6) ∧
    (r.1 < r.2 → -23 ≤ matchScore r ∧ matchScore r ≤ -11) := by
  obtain ⟨h1, h2, h3⟩ := h
  unfold matchScore
  refine ⟨?_, ?_, ?_⟩ <;> intro g <;> split_ifs <;> omega

theorem simulateGame_valid_ok (e o : List Nat) (h : simulateGame e o ≠ (-1, -1)) :
    ScoreOK 13 (simulateGame e o) := by
  rcases simulateGame_range_aux e o with g | g
  · exact absurd g h
  · exact g

/-! ## Malformed codes -/

/-- C1: `determineWinner` returns 1 exactly on the four dominance pairs
(W,V), (V,A), (A,L), (L,W), returns 2 exactly on their mirror images, and
returns 0 in every other case; that covers equal moves, the two-apart pairs
W/A and V/L, every pair with the wildcard D, and every pair with a byte
outside W, V, A, L, D. -/
theorem determineWinner_cyclic_dominance (a b : Nat) :
    (determineWinner a b = 1 ↔
      (a = cW ∧ b = cV) ∨ (a = cV ∧ b = cA) ∨ (a = cA ∧ b = cL) ∨ (a = cL ∧ b = cW)) ∧
    (determineWinner a b = 2 ↔
      (b = cW ∧ a = cV) ∨ (b = cV ∧ a = cA) ∨ (b = cA ∧ a = cL) ∨ (b = cL ∧ a = cW)) ∧
    (determineWinner a b = 0 ↔
      ¬ ((a = cW ∧ b = cV) ∨ (a = cV ∧ b = cA) ∨ (a = cA ∧ b = cL) ∨ (a = cL ∧ b = cW)) ∧
      ¬ ((b = cW ∧ a = cV) ∨ (b = cV ∧ a = cA) ∨ (b = cA ∧ a = cL) ∨ (b = cL ∧ a = cW))) ∧
    determineWinner a a = 0 ∧
    (determineWinner cW cA = 0 ∧ determineWinner cA cW = 0 ∧
      determineWinner cV cL = 0 ∧ determineWinner cL cV = 0) ∧
    (determineWinner a cD = 0 ∧ determineWinner cD b = 0) ∧
    ((a ∉ [cW, cV, cA, cL, cD] ∨ b ∉ [cW, cV, cA, cL, cD]) → determineWinner a b = 0) := by
  have ht := determineWinner_table a b
  refine ⟨ht.1, ht.2.1, ?_, determineWinner_self a, ?_, ?_, ?_⟩
  · rw [← ht.1, ← ht.2.1]
    rcases ht.2.2 with h | h | h <;> simp [h]
  · refine ⟨?_, ?_, ?_, ?_⟩ <;> simp [determineWinner, moveToIndex, moveWins]
  · constructor
    · exact determineWinner_invalid_or_wild a cD (Or.inr rfl)
    · exact determineWinner_invalid_or_wild cD b (Or.inl rfl)
  · intro h
    apply determineWinner_invalid
    rcases h with h | h
    · left
      simpa [validMoves] using h
    · right
      simpa [validMoves] using h

/-- C1 instance: a byte outside the five symbols (here the digit 1) ties
against W. -/
theorem determineWinner_cyclic_dominance_witness :
    determineWinner 49 cW = 0 :=
  (determineWinner_cyclic_dominance 49 cW).2.2.2.2.2.2 (Or.inl (by decide))

/-- C2: `determineWinner` is antisymmetric: swapping the two moves swaps the
results 1 and 2 and keeps the result 0. -/
theorem determineWinner_antisymmetric (a b : Nat) :
    (determineWinner a b = 1 ↔ determineWinner b a = 2) ∧
    (determineWinner a b = 2 ↔ determineWinner b a = 1) ∧
    (determineWinner a b = 0 ↔ determineWinner b a = 0) := by
  refine ⟨determineWinner_swap_one a b, determineWinner_swap_two a b, ?_⟩
  have h1 := determineWinner_swap_one a b
  have h2 := determineWinner_swap_two a b
  rcases determineWinner_range a b with h | h | h <;>
  rcases determineWinner_range b a with g | g | g <;>
  simp_all

/-! ## Claims about whole matches -/

/-- C7: for two engine codes of the same encoding (both of length 12 or both
of length 13), if `simulateGame A B` is `(x, y)` then `simulateGame B A` is
`(y, x)`. -/
theorem simulateGame_symmetry (A B : List Nat)
    (h : (A.length = 12 ∧ B.length = 12) ∨ (A.length = 13 ∧ B.length = 13))
    (x y : Int) (hxy : simulateGame A B = (x, y)) : simulateGame B A = (y, x) := by
  rw [simulateGame_swap_same A B h, hxy]
  rfl

/-- C7 instance: the adaptive codes 111111111111 and 222222222222 score (6, 2)
one way round and (2, 6) the other. -/
theorem simulateGame_symmetry_witness :
    simulateGame (bytes "111111111111") (bytes "222222222222") = (6, 2) ∧
    simulateGame (bytes "222222222222") (bytes "111111111111") = (2, 6) :=
  ⟨by decide, simulateGame_symmetry (bytes "111111111111") (bytes "222222222222")
    (Or.inl ⟨by decide, by decide⟩) 6 2 (by decide)⟩

/-- C8: for a 12-byte adaptive engine `e` and a 13-byte fixed opponent `f`,
replaying the derived move sequence `simulateDepthGameToMoves e f` as a fixed
engine against `f` gives the same score pair as playing `e` against `f`, on
either side of the match. -/
theorem simulateGame_roundtrip (e f : List Nat) (he : e.length = 12) (hf : f.length = 13) :
    simulateGame (simulateDepthGameToMoves e f) f = simulateGame e f ∧
    simulateGame f (simulateDepthGameToMoves e f) = simulateGame f e := by
  have hm := simulateDepthGameToMoves_length e f
  rw [simulateGame_fixed _ f hm hf, simulateGame_fixed f _ hf hm, simulateGame_mixed e f he hf,
    simulateGame_mixed_rev e f he hf]
  by_cases h0 : (simulateDepthGameToMoves e f).getD 12 0 = 0
  · rw [if_pos h0, if_pos h0]
    exact ⟨simulateFixedGame_invalid _ f 12 (by omega)
        (Or.inl (by rw [h0]; exact validMoves_zero)),
      simulateFixedGame_invalid f _ 12 (by omega)
        (Or.inr (by rw [h0]; exact validMoves_zero))⟩
  · rw [if_neg h0, if_neg h0]
    exact ⟨rfl, rfl⟩

/-- C8 instance: the adaptive code 123412341234 against the fixed sequence
WVALWVALWVALD. -/
theorem simulateGame_roundtrip_witness :
    simulateGame (simulateDepthGameToMoves (bytes "123412341234") (bytes "WVALWVALWVALD"))
        (bytes "WVALWVALWVALD") = simulateGame (bytes "123412341234") (bytes "WVALWVALWVALD") ∧
    simulateGame (bytes "WVALWVALWVALD")
        (simulateDepthGameToMoves (bytes "123412341234") (bytes "WVALWVALWVALD")) =
      simulateGame (bytes "WVALWVALWVALD") (bytes "123412341234") :=
  simulateGame_roundtrip (bytes "123412341234") (bytes "WVALWVALWVALD") (by decide) (by decide)

/-- C9: in self-play `simulateGame e e` returns two equal scores, and the pair
is (0, 0) whenever the match is valid; for a 12-byte adaptive code the two
players are in the same state (same moves, same inventory) after every round
and after the forced last move, with both scores 0.  The fixed sequence
WVALWVALWVALW and the adaptive code 111111111111 both score (0, 0) against
themselves. -/
theorem simulateGame_self_play (e : List Nat) :
    (simulateGame e e).1 = (simulateGame e e).2 ∧
    (simulateGame e e ≠ (-1, -1) → simulateGame e e = (0, 0)) ∧
    (∀ n s, depthLoop e e n = some s →
      s.p1.moves = s.p2.moves ∧ s.p1 = s.p2 ∧ s.p1Score = 0 ∧ s.p2Score = 0) ∧
    (∀ s, depthFinal e e = some s →
      s.p1.moves = s.p2.moves ∧ s.p1Score = 0 ∧ s.p2Score = 0) ∧
    simulateGame (bytes "WVALWVALWVALW") (bytes "WVALWVALWVALW") = (0, 0) ∧
    simulateGame (bytes "111111111111") (bytes "111111111111") = (0, 0) := by
  refine ⟨?_, ?_, ?_, ?_, by decide, by decide⟩
  · rcases simulateGame_self e with h | h <;> rw [h]
  · intro hne
    rcases simulateGame_self e with h | h
    · exact h
    · exact absurd h hne
  · intro n s hs
    obtain ⟨hp, h1, h2⟩ := depthLoop_self e n s hs
    exact ⟨by rw [hp], hp, h1, h2⟩
  · intro s hs
    simp only [depthFinal] at hs
    cases h0 : depthLoop e e 12 with
    | none => simp [h0] at hs
    | some s0 =>
      simp only [h0, Option.map_some', Option.some.injEq] at hs
      subst hs
      obtain ⟨hp, h1, h2⟩ := depthFinish_self s0 (depthLoop_self e 12 s0 h0)
      exact ⟨by rw [hp], h1, h2⟩

/-- C10: for all strings `simulateGame` returns the sentinel (-1, -1) or a
pair of scores both between 0 and 13; exactly one component being -1 never
happens. -/
theorem simulateGame_range (e1 e2 : List Nat) :
    (simulateGame e1 e2 = (-1, -1) ∨
      (0 ≤ (simulateGame e1 e2).1 ∧ (simulateGame e1 e2).1 ≤ 13 ∧
       0 ≤ (simulateGame e1 e2).2 ∧ (simulateGame e1 e2).2 ≤ 13)) ∧
    ((simulateGame e1 e2).1 = -1 ↔ (simulateGame e1 e2).2 = -1) := by
  rcases simulateGame_range_aux e1 e2 with h | h
  · rw [h]
    exact ⟨Or.inl rfl, by simp⟩
  · obtain ⟨h1, h2, h3⟩ := h
    refine ⟨Or.inr ⟨h1, by omega, h2, by omega⟩, ?_⟩
    constructor <;> intro g <;> omega

/-! ## Claims about the batch evaluator -/

/-- C5: for every batch and panel, the result `evaluateBatch` emits for a
candidate has as score the sum, over the opponents whose `simulateGame` result
is not the sentinel, of differential plus 10 for a win, differential minus 10
for a loss and the candidate's own score for a tie, and has as win count the
number of those opponents it beats; sentinel results add nothing to either. -/
theorem evaluateBatch_score_and_wins (batch offerEngines : List (List Nat)) (progress : Int) :
    (evaluateBatch batch offerEngines progress).1.map (fun r => (r.engine, r.score, r.wins)) =
      batch.map (fun e =>
        (e,
         ((offerEngines.filter (fun o => decide (simulateGame e o ≠ (-1, -1)))).map
            (fun o => matchScore (simulateGame e o))).sum,
         ((((offerEngines.filter (fun o => decide (simulateGame e o ≠ (-1, -1)))).filter
            (fun o => decide ((simulateGame e o).1 > (simulateGame e o).2))).length : Nat) :
              Int))) := by
  rw [evaluateBatch_eq]
  simp [panelScore, panelWins, validOpponents]

/-- C6: `evaluateBatch` emits exactly one result per candidate, in batch
order; a result's `neverLoses` flag is true exactly when no opponent of the
panel gives a valid result with the candidate's score strictly lower than the
opponent's; and each result equals what evaluating that candidate alone
(with any value of the progress counter) emits, so it depends on the
candidate and the panel only. -/
theorem evaluateBatch_never_loses (batch offerEngines : List (List Nat)) (progress : Int) :
    (evaluateBatch batch offerEngines progress).1.length = batch.length ∧
    (evaluateBatch batch offerEngines progress).1.map (fun r => r.engine) = batch ∧
    (∀ r ∈ (evaluateBatch batch offerEngines progress).1,
      (r.neverLoses = true ↔
        ∀ o ∈ offerEngines, ¬ (simulateGame r.engine o ≠ (-1, -1) ∧
          (simulateGame r.engine o).1 < (simulateGame r.engine o).2))) ∧
    (∀ progress2 : Int, (evaluateBatch batch offerEngines progress).1 =
      batch.flatMap (fun e => (evaluateBatch [e] offerEngines progress2).1)) := by
  refine ⟨?_, ?_, ?_, ?_⟩
  · rw [evaluateBatch_eq]
    simp
  · rw [evaluateBatch_eq, List.map_map]
    exact List.map_id _
  · intro r hr
    rw [evaluateBatch_eq] at hr
    obtain ⟨e, _, rfl⟩ := List.mem_map.1 hr
    simp [panelNeverLoses]
  · intro progress2
    simp only [evaluateBatch_eq, List.map_cons, List.map_nil]
    induction batch with
    | nil => rfl
    | cons e es ih => simp [List.flatMap_cons, ih]

/-! ## Claims about move generation and malformed codes -/

set_option maxRecDepth 8000

/-- C3 as stated fails: the well-formed adaptive code 551111111111 asks for the
wildcard twice; its second request yields no move, so the match against the
fixed sequence WVALWVALWVALW (and against the adaptive code 111111111111, on
either side) is the sentinel, position 12 of the derived sequence stays zero,
and L is played only twice. -/
theorem double_wildcard_code_stalls :
    IsDepthCode (bytes "551111111111") ∧ IsFixedCode (bytes "WVALWVALWVALW") ∧
    IsDepthCode (bytes "111111111111") ∧
    simulateGame (bytes "551111111111") (bytes "WVALWVALWVALW") = (-1, -1) ∧
    simulateGame (bytes "551111111111") (bytes "111111111111") = (-1, -1) ∧
    simulateGame (bytes "111111111111") (bytes "551111111111") = (-1, -1) ∧
    (simulateDepthGameToMoves (bytes "551111111111") (bytes "WVALWVALWVALW")).getD 12 0 = 0 ∧
    (simulateDepthGameToMoves (bytes "551111111111") (bytes "WVALWVALWVALW")).count cL = 2 := by
  refine ⟨by decide, by decide, by decide, by decide, by decide, by decide, by decide,
    by decide⟩

/-- C3, amended: for every 12-byte adaptive code over the digits 1..5 that
contains the digit 5 at most once, move generation never stalls against a
well-formed opponent (a 13-byte sequence over W, V, A, L, D, or a 12-byte
adaptive code that also contains the digit 5 at most once): `simulateGame` is
not the sentinel, `simulateDepthGameToMoves` fills all 13 positions, and the
engine's 13 moves contain each of W, V, A, L exactly 3 times and D exactly
once. -/
theorem adaptive_moves_use_inventory (e : List Nat) (he : IsDepthCode e)
    (h5 : e.count 53 ≤ 1) :
    (∀ f, IsFixedCode f →
      simulateGame e f ≠ (-1, -1) ∧ simulateGame f e ≠ (-1, -1) ∧
      (simulateDepthGameToMoves e f).length = 13 ∧
      (∀ i, i < 13 → (simulateDepthGameToMoves e f).getD i 0 ≠ 0) ∧
      (simulateDepthGameToMoves e f).count cW = 3 ∧
      (simulateDepthGameToMoves e f).count cV = 3 ∧
      (simulateDepthGameToMoves e f).count cA = 3 ∧
      (simulateDepthGameToMoves e f).count cL = 3 ∧
      (simulateDepthGameToMoves e f).count cD = 1) ∧
    (∀ e2, IsDepthCode e2 → e2.count 53 ≤ 1 →
      simulateGame e e2 ≠ (-1, -1) ∧
      ∃ s, depthFinal e e2 = some s ∧ s.p1.moves.length = 13 ∧
        (∀ i, i < 13 → s.p1.moves.getD i 0 ≠ 0) ∧
        s.p1.moves.count cW = 3 ∧ s.p1.moves.count cV = 3 ∧ s.p1.moves.count cA = 3 ∧
        s.p1.moves.count cL = 3 ∧ s.p1.moves.count cD = 1) := by
  constructor
  · intro f hf
    have hfull := simulateDepthGameToMoves_full e f he h5 hf
    have hv := simulateGame_mixed_valid e f he h5 hf
    have ⟨hl, _, cw, cv, ca, cl, cd⟩ := hfull
    exact ⟨(ScoreOK_not_sentinel _ _ hv.1).1, (ScoreOK_not_sentinel _ _ hv.2).1, hl,
      fun i hi => FullInventoryUsed.getD_ne_zero _ hfull i hi, cw, cv, ca, cl, cd⟩
  · intro e2 he2 h52
    obtain ⟨s, hs, hfull, _⟩ := depthFinal_full e e2 he h5 he2 h52
    have hv := simulateGame_depth_valid e e2 he h5 he2 h52
    have ⟨hl, _, cw, cv, ca, cl, cd⟩ := hfull
    exact ⟨(ScoreOK_not_sentinel _ _ hv).1, s, hs, hl,
      fun i hi => FullInventoryUsed.getD_ne_zero _ hfull i hi, cw, cv, ca, cl, cd⟩

/-- C3 instance: the adaptive code 123452341234 against the fixed sequence
WVALWVALWVALW. -/
theorem adaptive_moves_use_inventory_witness :
    simulateGame (bytes "123452341234") (bytes "WVALWVALWVALW") ≠ (-1, -1) ∧
    (simulateDepthGameToMoves (bytes "123452341234") (bytes "WVALWVALWVALW")).count cD = 1 :=
  have h := (adaptive_moves_use_inventory (bytes "123452341234")
    (by decide) (by decide)).1 (bytes "WVALWVALWVALW") (by decide)
  ⟨h.1, h.2.2.2.2.2.2.2.2⟩

/-- C13: `getElementByDepth` is a rotation: for every previous move among
W, V, A, L, D and every depth 1..4 it equals the depth-1 rotation applied
`d` times to the normalised previous move (D counts as L); depth 4 returns
the normalised previous move; depth `a` followed by depth `b` equals the
single depth `((a + b - 1) mod 4) + 1`; depth 5 always returns D. -/
theorem getElementByDepth_rotation :
    (∀ prev ∈ [cW, cV, cA, cL, cD], ∀ d ∈ [1, 2, 3, 4],
      getElementByDepth prev d =
        Nat.iterate (fun x => getElementByDepth x 1) d (normElement prev)) ∧
    (∀ prev ∈ [cW, cV, cA, cL, cD], getElementByDepth prev 4 = normElement prev) ∧
    (∀ prev ∈ [cW, cV, cA, cL, cD], ∀ a ∈ [1, 2, 3, 4], ∀ b ∈ [1, 2, 3, 4],
      getElementByDepth (getElementByDepth prev a) b =
        getElementByDepth prev ((a + b - 1) % 4 + 1)) ∧
    (∀ prev : Nat, getElementByDepth prev 5 = cD) := by
  refine ⟨by decide, by decide, by decide, getElementByDepth_five⟩

/-- C14 as stated fails: from W the depth-1 rotation gives L, and L beats W
(`determineWinner` returns 2, not 1); depth 3 gives V, which W beats. -/
theorem rotation_one_is_beaten :
    getElementByDepth cW 1 = cL ∧ determineWinner cW (getElementByDepth cW 1) = 2 ∧
    determineWinner cW (getElementByDepth cW 1) ≠ 1 ∧
    determineWinner cW (getElementByDepth cW 3) = 1 := by
  decide

/-- C14, amended: rotation runs backward along the beats-cycle: for every
cyclic element `x`, depth 1 yields the element that beats `x`
(`determineWinner x (getElementByDepth x 1) = 2`), depth 3 yields the element
that `x` beats, and depths 2 and 4 yield elements that tie with `x`. -/
theorem rotation_against_beats_cycle :
    ∀ x ∈ [cW, cV, cA, cL],
      determineWinner x (getElementByDepth x 1) = 2 ∧
      determineWinner (getElementByDepth x 1) x = 1 ∧
      determineWinner x (getElementByDepth x 3) = 1 ∧
      determineWinner x (getElementByDepth x 2) = 0 ∧
      determineWinner x (getElementByDepth x 4) = 0 := by
  decide

/-- C14 instance: from V, depth 1 gives W, which beats V, and depth 3 gives A,
which V beats. -/
theorem rotation_against_beats_cycle_witness :
    determineWinner cV (getElementByDepth cV 1) = 2 ∧
    determineWinner (getElementByDepth cV 1) cV = 1 ∧
    determineWinner cV (getElementByDepth cV 3) = 1 ∧
    determineWinner cV (getElementByDepth cV 2) = 0 ∧
    determineWinner cV (getElementByDepth cV 4) = 0 :=
  rotation_against_beats_cycle cV (by decide)

/-- C15: for a desired cyclic element, `chooseAvailableElement` returns what
the substitution policy says (the element itself if in stock, else the first
of its three successive depth-1 rotations in stock, else D if in stock, else
0), and a non-zero result always has a positive count. -/
theorem chooseAvailableElement_policy (t : Nat) (inv : Inventory) (ht : IsCyclic t) :
    chooseAvailableElement t inv = choosePolicy t inv ∧
    (chooseAvailableElement t inv ≠ 0 →
      0 < inv.get (moveToIndexD (chooseAvailableElement t inv))) := by
  have r1 : rot1 cW = cL := by decide
  have r2 : rot1 cL = cA := by decide
  have r3 : rot1 cA = cV := by decide
  have r4 : rot1 cV = cW := by decide
  obtain ⟨w, v, a, l, d⟩ := inv
  rcases ht with rfl | rfl | rfl | rfl <;>
    simp only [chooseAvailableElement_eq, chooseLoop_five, choosePolicy, r1, r2, r3, r4,
      elementsDepthD_W, elementsDepthD_V, elementsDepthD_A, elementsDepthD_L, moveToIndexD_W,
      moveToIndexD_V, moveToIndexD_A, moveToIndexD_L, Inventory.get] <;>
    split_ifs <;>
    first
    | exact ⟨rfl, fun _ => by simpa [moveToIndexD_W, Inventory.get] using ‹w > 0›⟩
    | exact ⟨rfl, fun _ => by simpa [moveToIndexD_V, Inventory.get] using ‹v > 0›⟩
    | exact ⟨rfl, fun _ => by simpa [moveToIndexD_A, Inventory.get] using ‹a > 0›⟩
    | exact ⟨rfl, fun _ => by simpa [moveToIndexD_L, Inventory.get] using ‹l > 0›⟩
    | exact ⟨rfl, fun _ => by simpa [moveToIndexD_D, Inventory.get] using ‹d > 0›⟩
    | exact ⟨rfl, fun h => absurd rfl h⟩

/-- C15 instance: W is wanted, W and L are used up, A is in stock: the second
rotation A is chosen. -/
theorem chooseAvailableElement_policy_witness :
    chooseAvailableElement cW ⟨0, 2, 1, 0, 1⟩ = choosePolicy cW ⟨0, 2, 1, 0, 1⟩ ∧
    chooseAvailableElement cW ⟨0, 2, 1, 0, 1⟩ = cA :=
  ⟨(chooseAvailableElement_policy cW ⟨0, 2, 1, 0, 1⟩ (Or.inl rfl)).1, by decide⟩

/-! ## Claims about the dispatcher and the scoring weights -/

/-- C17: for `n ≥ 1` candidates and `k = ceil(n / 16)`, every candidate index
lies in exactly one of the sixteen ranges `[i * k, min (i * k + k) n)`; each
range ends within the list and has at most `k` indices; a non-empty range
starts where the one before it ends, and the first starts at 0; the batches
handed to the workers are non-empty, have at most `k` candidates and
concatenate to the whole candidate list. -/
theorem dispatch_covers_once (n : Nat) (hn : 1 ≤ n) :
    ((enginesPerThread n - 1) * 16 < n ∧ n ≤ enginesPerThread n * 16) ∧
    (∀ j, j < n → ∃ i, i < numThreads ∧ threadStart n i ≤ j ∧ j < threadEnd n i ∧
      ∀ i2, i2 < numThreads → threadStart n i2 ≤ j → j < threadEnd n i2 → i2 = i) ∧
    (∀ i, i < numThreads →
      threadEnd n i = min (i * enginesPerThread n + enginesPerThread n) n ∧
      threadEnd n i - threadStart n i ≤ enginesPerThread n) ∧
    (∀ i, i + 1 < numThreads → threadStart n (i + 1) < threadEnd n (i + 1) →
      threadEnd n i = threadStart n (i + 1)) ∧
    threadStart n 0 = 0 ∧
    (∀ xs : List (List Nat), xs.length = n →
      (dispatch xs).flatten = xs ∧
      ∀ b ∈ dispatch xs, b ≠ [] ∧ b.length ≤ enginesPerThread n) := by
  refine ⟨?_, ?_, ?_, ?_, ?_, ?_⟩
  · unfold enginesPerThread numThreads
    omega
  · intro j hj
    obtain ⟨h1, h2, h3⟩ := thread_index_exists n j hj
    refine ⟨_, h1, h2, h3, ?_⟩
    intro i2 _ g1 g2
    exact thread_index_unique n i2 j g1 g2
  · intro i _
    have hend := threadEnd_eq_min n i
    refine ⟨hend, ?_⟩
    omega
  · intro i _ h
    have hend := threadEnd_eq_min n i
    have hend2 := threadEnd_eq_min n (i + 1)
    have hs := threadStart_succ n i
    omega
  · simp [threadStart]
  · intro xs hxs
    subst hxs
    exact ⟨dispatch_flatten xs, dispatch_mem xs⟩

/-- C17 instance: 20 candidates give slices of 2; index 7 is in range 3 only. -/
theorem dispatch_covers_once_witness :
    ∃ i, i < numThreads ∧ threadStart 20 i ≤ 7 ∧ 7 < threadEnd 20 i ∧
      ∀ i2, i2 < numThreads → threadStart 20 i2 ≤ 7 → 7 < threadEnd 20 i2 → i2 = i :=
  (dispatch_covers_once 20 (by decide)).2.1 7 (by decide)

/-- C18: for a valid `simulateGame` result the amount `evaluateBatch` adds to
the score is between 11 and 23 for a win, between 0 and 6 for a tie and
between -23 and -11 for a loss; so a win adds strictly more than any tie and a
tie strictly more than any loss. -/
theorem match_weight_dominates (e o : List Nat) (acc : Tally × Int)
    (hvalid : simulateGame e o ≠ (-1, -1)) :
    ((simulateGame e o).1 > (simulateGame e o).2 →
      11 ≤ (evalStep e acc o).1.totalScore - acc.1.totalScore ∧
      (evalStep e acc o).1.totalScore - acc.1.totalScore ≤ 23) ∧
    ((simulateGame e o).1 = (simulateGame e o).2 →
      0 ≤ (evalStep e acc o).1.totalScore - acc.1.totalScore ∧
      (evalStep e acc o).1.totalScore - acc.1.totalScore ≤ 6) ∧
    ((simulateGame e o).1 < (simulateGame e o).2 →
      -23 ≤ (evalStep e acc o).1.totalScore - acc.1.totalScore ∧
      (evalStep e acc o).1.totalScore - acc.1.totalScore ≤ -11) ∧
    (∀ (e2 o2 : List Nat) (acc2 : Tally × Int), simulateGame e2 o2 ≠ (-1, -1) →
      ((simulateGame e o).1 > (simulateGame e o).2 →
        (simulateGame e2 o2).1 ≤ (simulateGame e2 o2).2 →
        (evalStep e2 acc2 o2).1.totalScore - acc2.1.totalScore <
          (evalStep e acc o).1.totalScore - acc.1.totalScore) ∧
      ((simulateGame e o).1 = (simulateGame e o).2 →
        (simulateGame e2 o2).1 < (simulateGame e2 o2).2 →
        (evalStep e2 acc2 o2).1.totalScore - acc2.1.totalScore <
          (evalStep e acc o).1.totalScore - acc.1.totalScore)) := by
  rw [evalStep_delta e o acc hvalid]
  have hb := matchScore_bounds _ (simulateGame_valid_ok e o hvalid)
  refine ⟨hb.1, hb.2.1, hb.2.2, ?_⟩
  intro e2 o2 acc2 hv2
  rw [evalStep_delta e2 o2 acc2 hv2]
  have hb2 := matchScore_bounds _ (simulateGame_valid_ok e2 o2 hv2)
  constructor
  · intro hw hle
    have := hb.1 hw
    rcases lt_or_eq_of_le hle with g | g
    · have := hb2.2.2 g
      omega
    · have := hb2.2.1 g
      omega
  · intro ht hl
    have := hb.2.1 ht
    have := hb2.2.2 hl
    omega

/-- C18 instance: 111111111111 beats 222222222222 by 6 to 2, which adds 14. -/
theorem match_weight_dominates_witness :
    (evalStep (bytes "111111111111") (⟨0, true, 0⟩, 0) (bytes "222222222222")).1.totalScore
      - 0 = 14 ∧
    (11 : Int) ≤ (evalStep (bytes "111111111111") (⟨0, true, 0⟩, 0)
      (bytes "222222222222")).1.totalScore - 0 :=
  ⟨by decide, ((match_weight_dominates (bytes "111111111111") (bytes "222222222222")
    (⟨0, true, 0⟩, 0) (by decide)).1 (by decide)).1⟩

/-! ## Claims about the player state -/

/-- C11: for arbitrary input strings, after every round of `simulateDepthGame`
and of `simulateDepthGameToMoves`, and after the forced last move, each
player's five counts are non-negative, `moveCount` is at most 13, the array
holds the recorded moves followed by zero bytes, and for every symbol the
remaining count plus its occurrences among the recorded moves is the initial
count (3 for W, V, A, L, 1 for D); hence D is played at most once and each
cyclic symbol at most 3 times. -/
theorem player_state_invariant (e1 e2 e f : List Nat) :
    (∀ n s, n ≤ 12 → depthLoop e1 e2 n = some s →
      PlayerInv n s.p1 ∧ s.p1.Accounted ∧ PlayerInv n s.p2 ∧ s.p2.Accounted) ∧
    (∀ s, depthFinal e1 e2 = some s →
      PlayerInv 13 s.p1 ∧ s.p1.Accounted ∧ PlayerInv 13 s.p2 ∧ s.p2.Accounted) ∧
    (∀ n, n ≤ 12 → ∃ k, k ≤ n ∧ PlayerInv k (movesLoop e f n) ∧
      (movesLoop e f n).Accounted) ∧
    (movesFinish (movesLoop e f 12)).Accounted ∧
    (∀ p : Player, p.Accounted →
      (0 ≤ p.available.w ∧ 0 ≤ p.available.v ∧ 0 ≤ p.available.a ∧ 0 ≤ p.available.l ∧
        0 ≤ p.available.d) ∧ p.moveCount ≤ 13 ∧
      p.moves.count cW ≤ 3 ∧ p.moves.count cV ≤ 3 ∧ p.moves.count cA ≤ 3 ∧
      p.moves.count cL ≤ 3 ∧ p.moves.count cD ≤ 1) := by
  refine ⟨?_, ?_, ?_, movesFinish_accounted e f, ?_⟩
  · intro n s hn hs
    obtain ⟨h1, h2⟩ := depthLoop_playerInv e1 e2 n hn s hs
    exact ⟨h1, PlayerInv.accounted n _ h1, h2, PlayerInv.accounted n _ h2⟩
  · intro s hs
    obtain ⟨h1, h2⟩ := depthFinal_playerInv e1 e2 s hs
    exact ⟨h1, PlayerInv.accounted 13 _ h1, h2, PlayerInv.accounted 13 _ h2⟩
  · intro n hn
    obtain ⟨k, hk, hp⟩ := movesLoop_playerInv e f n hn
    exact ⟨k, hk, hp, PlayerInv.accounted k _ hp⟩
  · intro p hp
    exact ⟨hp.1, hp.2.1, Player.Accounted.bounds p hp⟩

/-- C12 as stated fails: a fixed engine is taken verbatim, so the sequence of
thirteen D against itself is scored (0, 0) although each player plays the
wildcard 13 times; the same fixed sequence is also scored against an adaptive
engine. -/
theorem fixed_engine_wildcards_unchecked :
    simulateGame (bytes "DDDDDDDDDDDDD") (bytes "DDDDDDDDDDDDD") = (0, 0) ∧
    (bytes "DDDDDDDDDDDDD").count cD = 13 ∧
    simulateGame (bytes "111111111111") (bytes "DDDDDDDDDDDDD") = (0, 0) := by
  refine ⟨by decide, by decide, by decide⟩

/-- C12, amended: in every match that `simulateGame` scores as valid, the 13
moves of each adaptive (12-byte) player contain the wildcard D at most once;
the moves of a fixed 13-byte engine are taken verbatim and are not
constrained. -/
theorem adaptive_wildcard_at_most_once (e1 e2 : List Nat)
    (hvalid : simulateGame e1 e2 ≠ (-1, -1)) :
    (e1.length = 12 ∧ e2.length = 12 →
      ∃ s, depthFinal e1 e2 = some s ∧ (simulateGame e1 e2 = (s.p1Score, s.p2Score)) ∧
        s.p1.moves.count cD ≤ 1 ∧ s.p2.moves.count cD ≤ 1) ∧
    (e1.length = 12 ∧ e2.length = 13 →
      simulateGame e1 e2 = simulateFixedGame (simulateDepthGameToMoves e1 e2) e2 ∧
      (simulateDepthGameToMoves e1 e2).count cD ≤ 1) ∧
    (e1.length = 13 ∧ e2.length = 12 →
      simulateGame e1 e2 = simulateFixedGame e1 (simulateDepthGameToMoves e2 e1) ∧
      (simulateDepthGameToMoves e2 e1).count cD ≤ 1) := by
  refine ⟨?_, ?_, ?_⟩
  · rintro ⟨h1, h2⟩
    rw [simulateGame_depth e1 e2 h1 h2, simulateDepthGame_eq e1 e2 h1 h2] at hvalid ⊢
    cases h0 : depthFinal e1 e2 with
    | none => simp [h0] at hvalid
    | some s =>
      obtain ⟨hp1, hp2⟩ := depthFinal_playerInv e1 e2 s h0
      exact ⟨s, rfl, rfl,
        (Player.Accounted.bounds _ (PlayerInv.accounted 13 _ hp1)).2.2.2.2,
        (Player.Accounted.bounds _ (PlayerInv.accounted 13 _ hp2)).2.2.2.2⟩
  · rintro ⟨h1, h2⟩
    rw [simulateGame_mixed e1 e2 h1 h2] at hvalid ⊢
    constructor
    · split_ifs at hvalid ⊢ with h0
      · exact absurd rfl hvalid
      · rfl
    · rw [simulateDepthGameToMoves_eq e1 e2 h1 h2]
      exact (Player.Accounted.bounds _ (movesFinish_accounted e1 e2)).2.2.2.2
  · rintro ⟨h1, h2⟩
    rw [simulateGame_mixed_rev e2 e1 h2 h1] at hvalid ⊢
    constructor
    · split_ifs at hvalid ⊢ with h0
      · exact absurd rfl hvalid
      · rfl
    · rw [simulateDepthGameToMoves_eq e2 e1 h2 h1]
      exact (Player.Accounted.bounds _ (movesFinish_accounted e2 e1)).2.2.2.2

/-- C12 instance: the adaptive code 123452341234 against the fixed sequence
DDDDDDDDDDDDD is a valid match and the adaptive side plays D once at most. -/
theorem adaptive_wildcard_at_most_once_witness :
    (simulateDepthGameToMoves (bytes "123452341234") (bytes "DDDDDDDDDDDDD")).count cD ≤ 1 :=
  ((adaptive_wildcard_at_most_once (bytes "123452341234") (bytes "DDDDDDDDDDDDD")
    (by decide)).2.1 ⟨by decide, by decide⟩).2

/-- C20: for arbitrary strings, the inventory that `simulateDepthGameToMoves`
passes to `getLastElement` has moves left, so `getLastElement` returns a
non-zero symbol that is in stock and the function takes the branch that
records it, never the fallback that writes W; and whenever the 12-round loop
of `simulateDepthGame` completes, exactly one unit of inventory remains for
each player and `getLastElement` returns a non-zero symbol for both. -/
theorem forced_final_move_exists (e f e1 e2 : List Nat) :
    (0 < (movesLoop e f 12).available.total ∧
      getLastElement (movesLoop e f 12).available ≠ 0 ∧
      0 < (movesLoop e f 12).available.get
        (moveToIndexD (getLastElement (movesLoop e f 12).available)) ∧
      (movesFinish (movesLoop e f 12)).moves =
        (movesLoop e f 12).moves.set (movesLoop e f 12).moveCount
          (getLastElement (movesLoop e f 12).available)) ∧
    (∀ s, depthLoop e1 e2 12 = some s →
      s.p1.available.total = 1 ∧ s.p2.available.total = 1 ∧
      getLastElement s.p1.available ≠ 0 ∧ getLastElement s.p2.available ≠ 0 ∧
      0 < s.p1.available.get (moveToIndexD (getLastElement s.p1.available)) ∧
      0 < s.p2.available.get (moveToIndexD (getLastElement s.p2.available))) := by
  constructor
  · obtain ⟨k, hk, hp⟩ := movesLoop_playerInv e f 12 (le_refl 12)
    have hl := PlayerInv.last_pos k _ hp hk
    have hne := validMoves_ne_zero _ hl.1
    refine ⟨?_, hne, hl.2, ?_⟩
    · rw [hp.2.2.1]
      omega
    · rw [movesFinish_eq _ hne]
  · intro s hs
    obtain ⟨hp1, hp2⟩ := depthLoop_playerInv e1 e2 12 (le_refl 12) s hs
    have hl1 := PlayerInv.last_pos 12 _ hp1 (le_refl 12)
    have hl2 := PlayerInv.last_pos 12 _ hp2 (le_refl 12)
    refine ⟨?_, ?_, validMoves_ne_zero _ hl1.1, validMoves_ne_zero _ hl2.1, hl1.2, hl2.2⟩
    · rw [hp1.2.2.1]
      norm_num
    · rw [hp2.2.2.1]
      norm_num

/-! ## Claim about the stall condition -/

/-- C19: for two well-formed engine codes (12 bytes over the digits 1..5, or
13 bytes over W, V, A, L, D), `simulateGame` returns the sentinel (-1, -1)
exactly when at least one of them is a 12-byte adaptive code that contains
the digit 5 two or more times. -/
theorem stall_iff_double_five (e1 e2 : List Nat) (h1 : WellFormed e1) (h2 : WellFormed e2) :
    simulateGame e1 e2 = (-1, -1) ↔
      (IsDepthCode e1 ∧ 2 ≤ e1.count 53) ∨ (IsDepthCode e2 ∧ 2 ≤ e2.count 53) := by
  constructor
  · intro hs
    by_contra hno
    have c1 : IsDepthCode e1 → e1.count 53 ≤ 1 := by
      intro hd
      by_contra hc
      exact hno (Or.inl ⟨hd, by omega⟩)
    have c2 : IsDepthCode e2 → e2.count 53 ≤ 1 := by
      intro hd
      by_contra hc
      exact hno (Or.inr ⟨hd, by omega⟩)
    exact (ScoreOK_not_sentinel 13 _ (simulateGame_wellformed_valid e1 e2 h1 h2 c1 c2)).1 hs
  · rintro (⟨hd, hc⟩ | ⟨hd, hc⟩)
    · exact (simulateGame_double_five e1 e2 hd hc h2).1
    · exact (simulateGame_double_five e2 e1 hd hc h1).2

/-- C19 instance: 123455123412 has two digits 5 and stalls against the fixed
sequence WVALWVALWVALD. -/
theorem stall_iff_double_five_witness :
    simulateGame (bytes "123455123412") (bytes "WVALWVALWVALD") = (-1, -1) :=
  (stall_iff_double_five (bytes "123455123412") (bytes "WVALWVALWVALD")
    (Or.inl (by decide)) (Or.inr (by decide))).2 (Or.inl ⟨by decide, by decide⟩)

/-! ## Claim about the three drive modes on the same moves -/

/-- C16: when the adaptive-versus-adaptive match of two 12-byte codes does not
stall, with `m1`, `m2` the 13 moves the two players made,
`simulateDepthGameToMoves e1 m2` is `m1`, and `simulateGame e1 m2`,
`simulateGame m1 m2` and `simulateDepthGame e1 e2` are the same score pair. -/
theorem depth_game_agrees_with_mixed (e1 e2 : List Nat) (h1 : e1.length = 12)
    (h2 : e2.length = 12) (s : DepthState) (hs : depthFinal e1 e2 = some s) :
    simulateDepthGameToMoves e1 s.p2.moves = s.p1.moves ∧
    simulateGame e1 s.p2.moves = simulateGame s.p1.moves s.p2.moves ∧
    simulateGame s.p1.moves s.p2.moves = simulateDepthGame e1 e2 ∧
    simulateDepthGame e1 e2 = (s.p1Score, s.p2Score) ∧
    simulateDepthGame e1 e2 ≠ (-1, -1) := by
  obtain ⟨s0, h0, rfl⟩ := depthFinal_some e1 e2 s hs
  obtain ⟨hf1, hf2⟩ := depthFinish_playerInv e1 e2 s0 h0
  have hm1 := PlayerInv.moves_length 13 _ hf1
  have hm2 := PlayerInv.moves_length 13 _ hf2
  have ha := simulateDepthGameToMoves_agrees e1 e2 h1 s0 h0
  have hc := simulateFixedGame_agrees e1 e2 s0 h0
  have hd : simulateDepthGame e1 e2 = ((depthFinish s0).p1Score, (depthFinish s0).p2Score) := by
    rw [simulateDepthGame_eq e1 e2 h1 h2, hs]
  have hne : (depthFinish s0).p1.moves.getD 12 0 ≠ 0 :=
    FullInventoryUsed.getD_ne_zero _ (PlayerInv.full _ hf1) 12 (by omega)
  have hok := depthFinish_ok 12 s0 (depthLoop_ok e1 e2 12 s0 h0)
  refine ⟨ha, ?_, ?_, hd, ?_⟩
  · rw [simulateGame_mixed e1 _ h1 hm2, ha, if_neg hne, simulateGame_fixed _ _ hm1 hm2]
  · rw [simulateGame_fixed _ _ hm1 hm2, hc, hd]
  · rw [hd]
    exact (ScoreOK_not_sentinel _ _ hok).1

/-- C16 instance: the codes 111111111111 and 222222222222, whose match is
(6, 2). -/
theorem depth_game_agrees_with_mixed_witness :
    ∃ s, depthFinal (bytes "111111111111") (bytes "222222222222") = some s ∧
      simulateDepthGameToMoves (bytes "111111111111") s.p2.moves = s.p1.moves ∧
      simulateGame (bytes "111111111111") s.p2.moves = (6, 2) :=
  match h : depthFinal (bytes "111111111111") (bytes "222222222222") with
  | some s =>
    have t := depth_game_agrees_with_mixed (bytes "111111111111") (bytes "222222222222")
      (by decide) (by decide) s h
    ⟨s, rfl, t.1, by
      rw [t.2.1, t.2.2.1]
      decide⟩
  | none => absurd h (by decide)

end BOTE
